import Mathlib

/-!
# G10 key generation (`g10/keygen.c`)

A shallow embedding of `g10/keygen.c` and the properties of its checksum
helpers, its generators and of `generate_keypair`.

Conventions of the embedding:

* `u16` values are natural numbers reduced `% 65536` at every store,
  `unsigned` values are natural numbers reduced `% 4294967296`, `int`
  values are integers;
* a `byte *` together with the memory behind it is a `List byte`;
* functions the file calls but does not define (`mpi_get_buffer`,
  `elg_generate`, `build_packet`, `overwrite_filep`, ...) are fields of an
  environment record `Env`; every call of one is recorded, with its
  arguments and its result, in the list of `Call`s a run produces.
-/

namespace G10

/-! ## Machine types -/

/-- The `byte` typedef: an unsigned 8 bit value. -/
abbrev byte := Fin 256

/-- Big integers (`MPI`) are held by value. -/
abbrev MPI := Nat

/-- Store into a `u16` object. -/
def to_u16 (n : Nat) : Nat := n % 65536

/-- Store into an `unsigned` object (32 bits). -/
def to_unsigned (n : Nat) : Nat := n % 4294967296

/-- Conversion of an `int` to `unsigned`. -/
def int_to_unsigned (i : Int) : Nat := (i % 4294967296).toNat

/-! ## Checksum helpers (lines 54-86) -/

/-- The function `checksum_u16`: `a = (n >> 8) & 0xff; a |= n & 0xff;`. -/
def checksum_u16 (n : Nat) : Nat :=
  let a := to_u16 ((n >>> 8) &&& 0xff)
  let a := to_u16 (a ||| (n &&& 0xff))
  a

/-- The loop `for( ; n; n-- ) a += *p++;` of `checksum`, started with the
accumulator `a`.  Reading behind the end of the buffer has no value. -/
def checksum_loop : Nat → List byte → Nat → Option Nat
  | a, _, 0 => some a
  | _, [], _ + 1 => none
  | a, b :: p, n + 1 => checksum_loop (to_u16 (a + b.val)) p n

/-- The function `checksum( byte *p, unsigned n )`. -/
def checksum (p : List byte) (n : Nat) : Option Nat :=
  checksum_loop 0 p n

/-- The function `checksum_mpi`: `mpi_get_buffer` hands back the buffer and
stores its length in `nbytes`. -/
def checksum_mpi (mpi_get_buffer : MPI → List byte) (a : MPI) : Option Nat :=
  let buffer := mpi_get_buffer a
  let nbytes := buffer.length
  let csum := checksum_u16 (to_unsigned (nbytes * 8))
  (checksum buffer nbytes).map fun s => to_u16 (csum + s)

/-- Sum of the bytes of a buffer, as a natural number. -/
def byte_sum (B : List byte) : Nat := (B.map Fin.val).sum

/-! ## Records and packets (declared in `packet.h`, `cipher.h`) -/

/-- The two public key algorithms `generate_keypair` can select. -/
inductive PubkeyAlgo where
  | PUBKEY_ALGO_ELGAMAL
  | PUBKEY_ALGO_RSA
  deriving DecidableEq, Repr

structure ELG_public_key where
  p : MPI
  g : MPI
  y : MPI
  deriving DecidableEq, Repr

structure ELG_secret_key where
  p : MPI
  g : MPI
  y : MPI
  x : MPI
  deriving DecidableEq, Repr

structure RSA_public_key where
  n : MPI
  e : MPI
  deriving DecidableEq, Repr

structure RSA_secret_key where
  n : MPI
  e : MPI
  d : MPI
  p : MPI
  q : MPI
  u : MPI
  deriving DecidableEq, Repr

/-- The protection fields shared by `d.elg` and `d.rsa` of a secret
certificate: `is_protected`, `protect_algo`, `protect.blowfish.iv`. -/
structure Protection where
  is_protected : Nat
  protect_algo : Nat
  iv : List byte
  deriving DecidableEq, Repr

/-- The member `d.elg` of `PKT_secret_cert`. -/
structure elg_secret where
  p : MPI
  g : MPI
  y : MPI
  x : MPI
  csum : Nat
  prot : Protection
  deriving DecidableEq, Repr

/-- The member `d.rsa` of `PKT_secret_cert`; like `d.elg` it has the 16 bit
field `csum`. -/
structure rsa_secret where
  rsa_n : MPI
  rsa_e : MPI
  rsa_d : MPI
  rsa_p : MPI
  rsa_q : MPI
  rsa_u : MPI
  csum : Nat
  prot : Protection
  deriving DecidableEq, Repr

/-- The union `d` of `PKT_secret_cert`. -/
inductive secret_union where
  | elg (v : elg_secret)
  | rsa (v : rsa_secret)
  deriving DecidableEq, Repr

structure PKT_secret_cert where
  timestamp : Nat
  valid_days : Nat
  pubkey_algo : PubkeyAlgo
  d : secret_union
  deriving DecidableEq, Repr

/-- The union `d` of `PKT_public_cert`. -/
inductive public_union where
  | elg (p g y : MPI)
  | rsa (rsa_n rsa_e : MPI)
  deriving DecidableEq, Repr

/-- A public certificate; `mfx_zeroed` records the `memset` of `mfx`. -/
structure PKT_public_cert where
  timestamp : Nat
  valid_days : Nat
  pubkey_algo : PubkeyAlgo
  mfx_zeroed : Bool
  d : public_union
  deriving DecidableEq, Repr

structure PKT_user_id where
  len : Nat
  name : String
  deriving DecidableEq, Repr

/-- A signature packet as produced by `make_keysig_packet`. -/
structure PKT_signature where
  sig_class : Nat
  digest_algo : Nat
  value : List MPI
  deriving DecidableEq, Repr

structure DEK where
  algo : Nat
  key : List byte
  deriving DecidableEq, Repr

/-- A `PACKET`: the constructor is `pkttype`, the argument the member of the
union `pkt` that was set. -/
inductive PACKET where
  | PKT_PUBLIC_CERT (public_cert : PKT_public_cert)
  | PKT_SECRET_CERT (secret_cert : PKT_secret_cert)
  | PKT_USER_ID (user_id : PKT_user_id)
  | PKT_SIGNATURE (signature : PKT_signature)
  deriving DecidableEq, Repr

/-- An `IOBUF`: `none` is `NULL`, `some f` the stream created for file `f`. -/
abbrev IOBUF := Option String

/-- One call of a function that `keygen.c` uses but does not define, with
the arguments that matter and the result it gave. -/
inductive Call where
  | tty_get (answer : String)
  | make_dek_from_passphrase (rc : Int)
  | overwrite_filep (fname : String) (rc : Int)
  | iobuf_create (fname : String) (res : IOBUF)
  | iobuf_cancel (a : IOBUF)
  | iobuf_close (a : IOBUF)
  | write_comment (out : IOBUF) (s : String) (rc : Int)
  | elg_generate (nbits : Nat)
  | rsa_generate (nbits : Nat)
  | protect_secret_key (skc : PKT_secret_cert) (rc : Int)
  | build_packet (out : IOBUF) (pkt : PACKET) (rc : Int)
  | make_keysig_packet (pkc : Option PKT_public_cert) (uid : Option PKT_user_id)
      (skc : Option PKT_secret_cert) (rc : Int)
  deriving DecidableEq, Repr

/-- Everything `keygen.c` takes from outside: compile time switches, the
option flags, the operator, and the results of the functions it calls. -/
structure Env where
  /-- whether `HAVE_RSA_CIPHER` is defined -/
  HAVE_RSA_CIPHER : Bool
  /-- the macro `VERSION` -/
  VERSION : String
  /-- the macro `CIPHER_ALGO_BLOWFISH` -/
  CIPHER_ALGO_BLOWFISH : Nat
  /-- the macro `DIGEST_ALGO_RMD160` -/
  DIGEST_ALGO_RMD160 : Nat
  opt_batch : Bool
  opt_answer_yes : Bool
  opt_answer_no : Bool
  /-- what the operator types, one string for each `tty_get` -/
  answers : List String
  mpi_get_buffer : MPI → List byte
  make_timestamp : Nat
  elg_generate : Nat → ELG_public_key × ELG_secret_key
  rsa_generate : Nat → RSA_public_key × RSA_secret_key
  /-- what the memory handed out by `m_alloc( sizeof *skc )` holds in the
  protection fields before anything is stored there (`m_alloc` is not taken
  to clear memory: the generators clear `pkc->mfx` themselves) -/
  m_alloc_skc : Protection
  /-- the eight bytes `randomize_buffer` delivers -/
  randomize_buffer : Fin 8 → byte
  /-- result code of `protect_secret_key` and the record as it leaves it -/
  protect_secret_key : PKT_secret_cert → DEK → Int × PKT_secret_cert
  build_packet : IOBUF → PACKET → Int
  make_keysig_packet : Option PKT_public_cert → Option PKT_user_id →
    Option PKT_secret_cert → Nat → Nat → Int × PKT_signature
  /-- result code of `make_dek_from_passphrase` and the key it derived -/
  make_dek_from_passphrase : Int × List byte
  overwrite_filep : String → Int
  /-- whether `iobuf_create` delivers a stream for the file -/
  iobuf_create : String → Bool
  write_comment : IOBUF → String → Int

/-! ## Small helpers (lines 41-51 and the C library) -/

/-- The C library's `isspace` in the "C" locale. -/
def isspace (c : Char) : Bool :=
  c = ' ' || c = '\t' || c = '\n' || c = '\r' || c.toNat = 11 || c.toNat = 12

/-- Value of a run of decimal digits; stops at the first other character. -/
def atoi_digits : Int → List Char → Int
  | acc, [] => acc
  | acc, c :: cs =>
    if c.isDigit then atoi_digits (10 * acc + ((c.toNat - '0'.toNat : Nat) : Int)) cs
    else acc

/-- The C library's `atoi`: leading white space, an optional sign, decimal
digits.  The mathematical value is kept; it is the value C defines whenever
it fits an `int`. -/
def atoi (s : String) : Int :=
  match s.data.dropWhile isspace with
  | '-' :: cs => - atoi_digits 0 cs
  | '+' :: cs => atoi_digits 0 cs
  | cs => atoi_digits 0 cs

/-- The comparison `!stricmp(a, b)`: equal up to the case of ASCII letters. -/
def stricmp_eq (a b : String) : Bool :=
  a.data.map Char.toLower = b.data.map Char.toLower

/-- The function `answer_is_yes`. -/
def answer_is_yes (s : String) : Bool :=
  if stricmp_eq s "yes" then true
  else if s.data = ['y'] then true
  else if s.data = ['Y'] then true
  else false

/-- The C library's `strlen`: the number of bytes of the string. -/
def strlen (s : String) : Nat := s.utf8ByteSize

/-! ## `write_uid` and `write_selfsig` (lines 90-134) -/

/-- The function `write_uid`.  It returns nothing; the result is what it
stores through `upkt` (when `upkt` is not `NULL`) and the calls it made. -/
def write_uid (env : Env) (out : IOBUF) (s : String) (upkt : Bool) :
    Option PKT_user_id × List Call :=
  let n := strlen s
  let user_id : PKT_user_id := { len := n, name := s }
  let pkt := PACKET.PKT_USER_ID user_id
  let rc := env.build_packet out pkt
  -- `rc` is only logged
  (if upkt then some user_id else none, [Call.build_packet out pkt rc])

/-- The function `write_selfsig`: its return value and the calls it made. -/
def write_selfsig (env : Env) (out : IOBUF) (pkc : Option PKT_public_cert)
    (uid : Option PKT_user_id) (skc : Option PKT_secret_cert) : Int × List Call :=
  let r := env.make_keysig_packet pkc uid skc 0x13 env.DIGEST_ALGO_RMD160
  let rc := r.1
  let calls := [Call.make_keysig_packet pkc uid skc rc]
  if rc ≠ 0 then (rc, calls)
  else
    let pkt := PACKET.PKT_SIGNATURE r.2
    let rc := env.build_packet out pkt
    (rc, calls ++ [Call.build_packet out pkt rc])

/-! ## The generators (lines 137-286) -/

/-- Modelled from the spec: `copy_secret_cert` is defined in another file of
the repository; the spec has it "make an unprotected working copy of the
secret record".  With a `NULL` destination it hands back a new record that
holds what the source record holds at the time of the call. -/
def copy_secret_cert (s : PKT_secret_cert) : PKT_secret_cert := s

/-- What a generator hands back: its return value, what it stored through
`ret_pkc` and `ret_skc` (`none`: nothing stored, the caller's pointer keeps its
`NULL`), and the calls it made. -/
structure GenResult where
  rc : Int
  ret_pkc : Option PKT_public_cert
  ret_skc : Option PKT_secret_cert
  calls : List Call
  deriving DecidableEq, Repr

/-- The secret certificate of `gen_elg` whose member `d.elg` is `v`. -/
def elg_cert (env : Env) (v : elg_secret) : PKT_secret_cert :=
  { timestamp := env.make_timestamp, valid_days := 0,
    pubkey_algo := PubkeyAlgo.PUBKEY_ALGO_ELGAMAL, d := secret_union.elg v }

/-- The secret certificate of `gen_rsa` whose member `d.rsa` is `v`. -/
def rsa_cert (env : Env) (v : rsa_secret) : PKT_secret_cert :=
  { timestamp := env.make_timestamp, valid_days := 0,
    pubkey_algo := PubkeyAlgo.PUBKEY_ALGO_RSA, d := secret_union.rsa v }

/-- Lines 228-244 of `gen_elg`: the public certificate and the member `d.elg`
of the secret certificate once the checksum is stored.  The protection
fields have not been assigned yet and hold what `m_alloc` left there. -/
def gen_elg_built (env : Env) (nbits : Nat) : Option (PKT_public_cert × elg_secret) :=
  let pk := (env.elg_generate nbits).1
  let sk := (env.elg_generate nbits).2
  let pkc : PKT_public_cert :=
    { timestamp := env.make_timestamp, valid_days := 0,
      pubkey_algo := PubkeyAlgo.PUBKEY_ALGO_ELGAMAL, mfx_zeroed := true,
      d := public_union.elg pk.p pk.g pk.y }
  (checksum_mpi env.mpi_get_buffer sk.x).map fun csum =>
    (pkc, { p := sk.p, g := sk.g, y := sk.y, x := sk.x, csum := csum,
            prot := env.m_alloc_skc })

/-- Lines 261-285 of `gen_elg` and lines 188-209 of `gen_rsa`: both packets
are built; `ret_skc` is what the generator stores through `ret_skc` when both
writes succeed. -/
def gen_serialize (env : Env) (pub_io sec_io : IOBUF) (pkc : PKT_public_cert)
    (skc : PKT_secret_cert) (ret_skc : Option PKT_secret_cert) (calls : List Call) :
    GenResult :=
  let pkt1 := PACKET.PKT_PUBLIC_CERT pkc
  let pkt2 := PACKET.PKT_SECRET_CERT skc
  let rc := env.build_packet pub_io pkt1
  let calls := calls ++ [Call.build_packet pub_io pkt1 rc]
  if rc ≠ 0 then { rc := rc, ret_pkc := none, ret_skc := none, calls := calls }
  else
    let rc := env.build_packet sec_io pkt2
    let calls := calls ++ [Call.build_packet sec_io pkt2 rc]
    if rc ≠ 0 then { rc := rc, ret_pkc := none, ret_skc := none, calls := calls }
    else { rc := rc, ret_pkc := some pkc, ret_skc := ret_skc, calls := calls }

/-- The function `gen_elg`. -/
def gen_elg (env : Env) (nbits : Nat) (pub_io sec_io : IOBUF) (dek : Option DEK) :
    Option GenResult :=
  (gen_elg_built env nbits).map fun built =>
    let pkc := built.1
    let v := built.2
    let calls := [Call.elg_generate nbits]
    let unprotected_skc := copy_secret_cert (elg_cert env v)
    match dek with
    | none =>
      let skc := elg_cert env
        { v with prot := { v.prot with is_protected := 0, protect_algo := 0 } }
      gen_serialize env pub_io sec_io pkc skc (some unprotected_skc) calls
    | some dek =>
      let skc := elg_cert env
        { v with prot := { is_protected := 0, protect_algo := env.CIPHER_ALGO_BLOWFISH,
                           iv := List.ofFn env.randomize_buffer } }
      let r := env.protect_secret_key skc dek
      let rc := r.1
      let calls := calls ++ [Call.protect_secret_key skc rc]
      if rc ≠ 0 then { rc := rc, ret_pkc := none, ret_skc := none, calls := calls }
      else gen_serialize env pub_io sec_io pkc r.2 (some unprotected_skc) calls

/-- Lines 152-171 of `gen_rsa`: the public certificate and the member `d.rsa`
of the secret certificate once the checksum is stored. -/
def gen_rsa_built (env : Env) (nbits : Nat) : Option (PKT_public_cert × rsa_secret) := do
  let pk := (env.rsa_generate nbits).1
  let sk := (env.rsa_generate nbits).2
  let pkc : PKT_public_cert :=
    { timestamp := env.make_timestamp, valid_days := 0,
      pubkey_algo := PubkeyAlgo.PUBKEY_ALGO_RSA, mfx_zeroed := true,
      d := public_union.rsa pk.n pk.e }
  let csum ← checksum_mpi env.mpi_get_buffer sk.d
  let csum := to_u16 (csum + (← checksum_mpi env.mpi_get_buffer sk.p))
  let csum := to_u16 (csum + (← checksum_mpi env.mpi_get_buffer sk.q))
  let csum := to_u16 (csum + (← checksum_mpi env.mpi_get_buffer sk.u))
  pure (pkc, { rsa_n := sk.n, rsa_e := sk.e, rsa_d := sk.d, rsa_p := sk.p,
               rsa_q := sk.q, rsa_u := sk.u, csum := csum, prot := env.m_alloc_skc })

/-- The function `gen_rsa` (compiled when `HAVE_RSA_CIPHER` is defined).  On
success it stores `pkt1.pkt.secret_cert` through `ret_skc` right after
`pkt1.pkt.public_cert` was set to `NULL`; `pkt` is a union of pointers, so
what it stores is `NULL`. -/
def gen_rsa (env : Env) (nbits : Nat) (pub_io sec_io : IOBUF) (dek : Option DEK) :
    Option GenResult := do
  let built ← gen_rsa_built env nbits
  let pkc := built.1
  let v := built.2
  let calls := [Call.rsa_generate nbits]
  match dek with
  | none =>
    let skc := rsa_cert env
      { v with prot := { v.prot with is_protected := 0, protect_algo := 0 } }
    pure (gen_serialize env pub_io sec_io pkc skc none calls)
  | some dek =>
    let iv := List.ofFn env.randomize_buffer
    let csum := to_u16 (v.csum + (← checksum iv 8))
    let skc := rsa_cert env
      { v with csum := csum,
               prot := { is_protected := 1, protect_algo := env.CIPHER_ALGO_BLOWFISH,
                         iv := iv } }
    let r := env.protect_secret_key skc dek
    let rc := r.1
    let calls := calls ++ [Call.protect_secret_key skc rc]
    if rc ≠ 0 then pure { rc := rc, ret_pkc := none, ret_skc := none, calls := calls }
    else pure (gen_serialize env pub_io sec_io pkc r.2 none calls)

/-! ## `generate_keypair` (lines 293-507) -/

/-- Outcome of a prompt loop: `blocked` when `tty_get` waits for an answer
the operator never gives, otherwise the value settled on, the answers not yet
consumed, and the calls made so far. -/
inductive Asked (α : Type) where
  | blocked (calls : List Call)
  | done (v : α) (rest : List String) (calls : List Call)
  deriving DecidableEq

/-- The algorithm menu loop, lines 323-344. -/
def ask_algo (have_rsa : Bool) : List Call → List String → Asked PubkeyAlgo
  | calls, [] => Asked.blocked calls
  | calls, answer :: rest =>
    let calls := calls ++ [Call.tty_get answer]
    let algo : Int := if answer ≠ "" then atoi answer else 1
    if algo = 1 then Asked.done PubkeyAlgo.PUBKEY_ALGO_ELGAMAL rest calls
    else if have_rsa && algo = 2 then Asked.done PubkeyAlgo.PUBKEY_ALGO_RSA rest calls
    else ask_algo have_rsa calls rest

/-- The key size loop, lines 355-382: the value of `nbits` at the `break`. -/
def ask_keysize : List Call → List String → Asked Nat
  | calls, [] => Asked.blocked calls
  | calls, answer :: rest =>
    let calls := calls ++ [Call.tty_get answer]
    let nbits : Nat := if answer ≠ "" then int_to_unsigned (atoi answer) else 1024
    if nbits < 128 then ask_keysize calls rest
    else if nbits > 2048 then
      match rest with
      | [] => Asked.blocked calls
      | answer :: rest =>
        let calls := calls ++ [Call.tty_get answer]
        if answer_is_yes answer then Asked.done nbits rest calls
        else ask_keysize calls rest
    else Asked.done nbits rest calls

/-- Lines 384-387: `if( (nbits % 32) ) nbits = ((nbits + 31) / 32) * 32;` in
`unsigned` arithmetic. -/
def round_keysize (nbits : Nat) : Nat :=
  if nbits % 32 ≠ 0 then to_unsigned ((to_unsigned (nbits + 31) / 32) * 32)
  else nbits

/-- The user id loop, lines 397-414. -/
def ask_uid : List Call → List String → Asked String
  | calls, [] => Asked.blocked calls
  | calls, uid :: rest =>
    let calls := calls ++ [Call.tty_get uid]
    if strlen uid < 5 then ask_uid calls rest
    else
      match rest with
      | [] => Asked.blocked calls
      | answer :: rest =>
        let calls := calls ++ [Call.tty_get answer]
        if answer_is_yes answer then Asked.done uid rest calls
        else ask_uid calls rest

/-- How a run of `generate_keypair` ends. -/
inductive Exit where
  /-- the function returned to its caller -/
  | returned
  /-- the run ended in `log_fatal` -/
  | fatal
  /-- the run ended in `log_bug` -/
  | bug
  /-- a `tty_get` waits for an answer that never comes -/
  | blocked
  deriving DecidableEq, Repr

/-- A run of `generate_keypair`: how it ended and the calls it made, in
order. -/
structure Run where
  exit : Exit
  calls : List Call
  deriving DecidableEq, Repr

def pub_fname : String := "./pubring.g10"

def sec_fname : String := "./secring.g10"

/-- Lines 482-498: the steps after the generator (whose result is `g`) and
the final close or cancel of both streams. -/
def finish_keypair (env : Env) (pub_io sec_io : IOBUF) (uid : String)
    (calls : List Call) (g : GenResult) : Run :=
  let calls := calls ++ g.calls
  let rc := g.rc
  let pkc := g.ret_pkc
  let skc := g.ret_skc
  let w1 := if rc = 0 then write_uid env pub_io uid true else (none, [])
  let upkt := w1.1
  let calls := calls ++ w1.2
  let w2 := if rc = 0 then write_uid env sec_io uid false else (none, [])
  let calls := calls ++ w2.2
  let w3 := if rc = 0 then write_selfsig env pub_io pkc upkt skc else (rc, [])
  let rc := w3.1
  let calls := calls ++ w3.2
  if rc ≠ 0 then
    { exit := Exit.returned,
      calls := calls ++ [Call.iobuf_cancel pub_io, Call.iobuf_cancel sec_io] }
  else
    { exit := Exit.returned,
      calls := calls ++ [Call.iobuf_close pub_io, Call.iobuf_close sec_io] }

/-- Lines 471-498: the comment headers, the chosen generator, and the rest. -/
def write_keyrings (env : Env) (algo : PubkeyAlgo) (nbits : Nat) (uid : String)
    (dek : Option DEK) (pub_io sec_io : IOBUF) (calls : List Call) : Option Run :=
  let c1 := "#public key created by G10 pre-release " ++ env.VERSION
  let c2 := "#secret key created by G10 pre-release " ++ env.VERSION
  let calls := calls ++ [Call.write_comment pub_io c1 (env.write_comment pub_io c1)]
  let calls := calls ++ [Call.write_comment sec_io c2 (env.write_comment sec_io c2)]
  match algo with
  | PubkeyAlgo.PUBKEY_ALGO_ELGAMAL =>
    (gen_elg env nbits pub_io sec_io dek).map (finish_keypair env pub_io sec_io uid calls)
  | PubkeyAlgo.PUBKEY_ALGO_RSA =>
    if env.HAVE_RSA_CIPHER then
      (gen_rsa env nbits pub_io sec_io dek).map (finish_keypair env pub_io sec_io uid calls)
    else some { exit := Exit.bug, calls := calls }

/-- Lines 438-469 followed by the rest of the function: the overwrite checks
and the creation of the two streams. -/
def prepare_keyrings (env : Env) (algo : PubkeyAlgo) (nbits : Nat) (uid : String)
    (dek : Option DEK) (calls : List Call) : Option Run :=
  let rc := env.overwrite_filep pub_fname
  let calls := calls ++ [Call.overwrite_filep pub_fname rc]
  if rc = 0 then
    let pub_io : IOBUF := if env.iobuf_create pub_fname then some pub_fname else none
    let calls := calls ++ [Call.iobuf_create pub_fname pub_io]
    -- a `NULL` result is logged, the function goes on
    let rc := env.overwrite_filep sec_fname
    let calls := calls ++ [Call.overwrite_filep sec_fname rc]
    if rc = 0 then
      let sec_io : IOBUF := if env.iobuf_create sec_fname then some sec_fname else none
      let calls := calls ++ [Call.iobuf_create sec_fname sec_io]
      write_keyrings env algo nbits uid dek pub_io sec_io calls
    else if rc ≠ -1 then
      some { exit := Exit.returned, calls := calls }
    else
      some { exit := Exit.returned, calls := calls ++ [Call.iobuf_cancel pub_io] }
  else if rc ≠ -1 then
    some { exit := Exit.returned, calls := calls }
  else
    some { exit := Exit.returned, calls := calls }

/-- The function `generate_keypair` (`TEST_ALGO`, `TEST_NBITS` and `TEST_UID`
are not defined). -/
def generate_keypair (env : Env) : Option Run :=
  if env.opt_batch || env.opt_answer_yes || env.opt_answer_no then
    some { exit := Exit.fatal, calls := [] }
  else
    match ask_algo env.HAVE_RSA_CIPHER [] env.answers with
    | Asked.blocked calls => some { exit := Exit.blocked, calls := calls }
    | Asked.done algo answers calls =>
      match ask_keysize calls answers with
      | Asked.blocked calls => some { exit := Exit.blocked, calls := calls }
      | Asked.done nbits answers calls =>
        let nbits := round_keysize nbits
        match ask_uid calls answers with
        | Asked.blocked calls => some { exit := Exit.blocked, calls := calls }
        | Asked.done uid _ calls =>
          let rc := env.make_dek_from_passphrase.1
          let calls := calls ++ [Call.make_dek_from_passphrase rc]
          if rc = -1 then
            prepare_keyrings env algo nbits uid none calls
          else if rc ≠ 0 then
            some { exit := Exit.returned, calls := calls }
          else
            let dek : DEK :=
              { algo := env.CIPHER_ALGO_BLOWFISH, key := env.make_dek_from_passphrase.2 }
            prepare_keyrings env algo nbits uid (some dek) calls

/-! ## Observations on the calls of a run -/

/-- The packet kinds a keyring stream can hold. -/
inductive Tag where
  | comment
  | public_cert
  | secret_cert
  | user_id
  | signature
  deriving DecidableEq, Repr

/-- Kind of a `PACKET` (its `pkttype`). -/
def PACKET.tag : PACKET → Tag
  | PACKET.PKT_PUBLIC_CERT _ => Tag.public_cert
  | PACKET.PKT_SECRET_CERT _ => Tag.secret_cert
  | PACKET.PKT_USER_ID _ => Tag.user_id
  | PACKET.PKT_SIGNATURE _ => Tag.signature

/-- The kind of packet a call appends to the stream `a`, if it appends one:
`write_comment` and `build_packet` do when they report success. -/
def Call.appends (a : IOBUF) : Call → Option Tag
  | Call.write_comment out _ rc => if out = a ∧ rc = 0 then some Tag.comment else none
  | Call.build_packet out pkt rc => if out = a ∧ rc = 0 then some pkt.tag else none
  | _ => none

/-- Modelled from the spec: the packet serializer (`build_packet` and
`write_comment`, defined in another file of the repository) is "append-only
and order-preserving".  The content of the stream `a` after the calls `cs` is
the list, in call order, of the kinds of the packets whose write to `a`
succeeded. -/
def stream_tags (a : IOBUF) (cs : List Call) : List Tag :=
  cs.filterMap (Call.appends a)

/-- The kind of packet a call hands to the serializer for the stream `a`,
whatever the serializer then reports. -/
def Call.writes (a : IOBUF) : Call → Option Tag
  | Call.write_comment out _ _ => if out = a then some Tag.comment else none
  | Call.build_packet out pkt _ => if out = a then some pkt.tag else none
  | _ => none

/-- The kinds of the packets handed to the serializer for the stream `a`, in
call order. -/
def stream_writes (a : IOBUF) (cs : List Call) : List Tag :=
  cs.filterMap (Call.writes a)

/-- Result code of a call of the serializer; 0 for every other call. -/
def Call.write_rc : Call → Int
  | Call.write_comment _ _ rc => rc
  | Call.build_packet _ _ rc => rc
  | _ => 0

/-- The key size a call hands to a key generation primitive. -/
def Call.generates : Call → Option Nat
  | Call.elg_generate n => some n
  | Call.rsa_generate n => some n
  | _ => none

/-- The key sizes handed to a generator (the argument of `elg_generate` and
`rsa_generate`, to which `gen_elg` and `gen_rsa` pass their `nbits` on). -/
def generator_nbits (cs : List Call) : List Nat :=
  cs.filterMap Call.generates

/-- The file a call of `iobuf_create` was made for. -/
def Call.creates : Call → Option String
  | Call.iobuf_create f _ => some f
  | _ => none

/-- The files `iobuf_create` was called for, in call order. -/
def creations (cs : List Call) : List String :=
  cs.filterMap Call.creates

/-- The stream a call of `iobuf_create` delivered. -/
def Call.created : Call → Option String
  | Call.iobuf_create _ (some f) => some f
  | _ => none

/-- The streams that `iobuf_create` delivered. -/
def created (cs : List Call) : List String :=
  cs.filterMap Call.created

/-- The file a call of `overwrite_filep` was made for. -/
def Call.checks : Call → Option String
  | Call.overwrite_filep f _ => some f
  | _ => none

/-- The files `overwrite_filep` was called for, in call order. -/
def overwrite_checks (cs : List Call) : List String :=
  cs.filterMap Call.checks

/-- The stream of file `f` was closed. -/
def closed (f : String) (cs : List Call) : Bool :=
  cs.contains (Call.iobuf_close (some f))

/-- The stream of file `f` was cancelled. -/
def cancelled (f : String) (cs : List Call) : Bool :=
  cs.contains (Call.iobuf_cancel (some f))

/-- The stream of file `f` was created and neither closed nor cancelled. -/
def left_open (f : String) (cs : List Call) : Bool :=
  (created cs).contains f && !closed f cs && !cancelled f cs

/-- The secret certificate a call hands to `build_packet`. -/
def Call.secret_cert : Call → Option PKT_secret_cert
  | Call.build_packet _ (PACKET.PKT_SECRET_CERT skc) _ => some skc
  | _ => none

/-- The secret certificates handed to `build_packet`, in call order. -/
def serialized_secret (cs : List Call) : List PKT_secret_cert :=
  cs.filterMap Call.secret_cert

/-- The public certificate a call hands to `build_packet`. -/
def Call.public_cert : Call → Option PKT_public_cert
  | Call.build_packet _ (PACKET.PKT_PUBLIC_CERT pkc) _ => some pkc
  | _ => none

/-- The public certificates handed to `build_packet`, in call order. -/
def serialized_public (cs : List Call) : List PKT_public_cert :=
  cs.filterMap Call.public_cert

/-- The field `csum` of a secret certificate. -/
def PKT_secret_cert.csum (c : PKT_secret_cert) : Nat :=
  match c.d with
  | secret_union.elg v => v.csum
  | secret_union.rsa v => v.csum

/-- The field `is_protected` of a secret certificate. -/
def PKT_secret_cert.is_protected (c : PKT_secret_cert) : Nat :=
  match c.d with
  | secret_union.elg v => v.prot.is_protected
  | secret_union.rsa v => v.prot.is_protected

/-- Closed form of `checksum_mpi`: folded bit length plus byte sum. -/
def mpi_csum (mpi_get_buffer : MPI → List byte) (a : MPI) : Nat :=
  (checksum_u16 (8 * (mpi_get_buffer a).length) + byte_sum (mpi_get_buffer a) % 65536) % 65536

/-- The calls of the interactive part: `tty_get` and
`make_dek_from_passphrase`. -/
def Call.is_prompt : Call → Bool
  | Call.tty_get _ => true
  | Call.make_dek_from_passphrase _ => true
  | _ => false

/-- The calls a generator makes. -/
def Call.is_generator_call : Call → Bool
  | Call.elg_generate _ => true
  | Call.rsa_generate _ => true
  | Call.protect_secret_key _ _ => true
  | Call.build_packet _ _ _ => true
  | _ => false

/-- The calls made by `write_uid` and `write_selfsig`. -/
def Call.is_sign_call : Call → Bool
  | Call.build_packet _ _ _ => true
  | Call.make_keysig_packet _ _ _ _ => true
  | _ => false

/-- The calls recorded by a prompt loop. -/
def Asked.calls {α : Type} : Asked α → List Call
  | Asked.blocked calls => calls
  | Asked.done _ _ calls => calls

/-- The user id packet `write_uid` builds for the string `s`. -/
def uid_packet (s : String) : PACKET :=
  PACKET.PKT_USER_ID { len := strlen s, name := s }

/-- The two `write_comment` calls of lines 471-472. -/
def comment_calls (env : Env) (pub_io sec_io : IOBUF) : List Call :=
  [Call.write_comment pub_io ("#public key created by G10 pre-release " ++ env.VERSION)
     (env.write_comment pub_io ("#public key created by G10 pre-release " ++ env.VERSION)),
   Call.write_comment sec_io ("#secret key created by G10 pre-release " ++ env.VERSION)
     (env.write_comment sec_io ("#secret key created by G10 pre-release " ++ env.VERSION))]

/-- The calls made once both overwrite checks have passed, from the comment
headers on: everything but prompts, overwrite checks and stream creation. -/
def Call.is_output_call : Call → Bool
  | Call.tty_get _ => false
  | Call.make_dek_from_passphrase _ => false
  | Call.overwrite_filep _ _ => false
  | Call.iobuf_create _ _ => false
  | _ => true

/-- The value of `pub_io` after line 440. -/
def pub_stream (env : Env) : IOBUF :=
  if env.iobuf_create pub_fname then some pub_fname else none

/-- The value of `sec_io` after line 455. -/
def sec_stream (env : Env) : IOBUF :=
  if env.iobuf_create sec_fname then some sec_fname else none

/-- The calls of lines 439-455 when both overwrite checks are made: the
check and the creation for the public keyring, the check for the secret
one. -/
def prepare_calls (env : Env) : List Call :=
  [Call.overwrite_filep pub_fname (env.overwrite_filep pub_fname),
   Call.iobuf_create pub_fname (pub_stream env),
   Call.overwrite_filep sec_fname (env.overwrite_filep sec_fname)]

/-- What the later proofs need to know about the calls a generator made. -/
def GenShape (nbits : Nat) (pub_io sec_io : IOBUF) (g : GenResult) : Prop :=
  (∀ c ∈ g.calls, c.is_generator_call = true) ∧
  generator_nbits g.calls = [nbits] ∧
  (g.rc = 0 →
    (∀ c ∈ g.calls, c.write_rc = 0) ∧
    ∀ a, stream_writes a g.calls
      = (if pub_io = a then [Tag.public_cert] else [])
        ++ (if sec_io = a then [Tag.secret_cert] else []))

/-- The calls that end the life of a stream: `iobuf_close` and
`iobuf_cancel`. -/
def Call.is_end_call : Call → Bool
  | Call.iobuf_close _ => true
  | Call.iobuf_cancel _ => true
  | _ => false

/-! ## A concrete environment -/

/-- An operator who takes the defaults (ElGamal, 1024 bits), names the key
"Karl Test" and gives no passphrase, on a system where every call succeeds.
The memory `m_alloc` hands out is not zero. -/
def karl_env : Env :=
  { HAVE_RSA_CIPHER := true, VERSION := "0.0.0", CIPHER_ALGO_BLOWFISH := 42,
    DIGEST_ALGO_RMD160 := 3, opt_batch := false, opt_answer_yes := false,
    opt_answer_no := false, answers := ["", "", "Karl Test", "y"],
    mpi_get_buffer := fun a => [Fin.ofNat (a / 256), Fin.ofNat a],
    make_timestamp := 879000000,
    elg_generate := fun _ =>
      ({ p := 2579, g := 2, y := 949 }, { p := 2579, g := 2, y := 949, x := 765 }),
    rsa_generate := fun _ =>
      ({ n := 3233, e := 17 }, { n := 3233, e := 17, d := 2753, p := 61, q := 53, u := 38 }),
    m_alloc_skc := { is_protected := 1, protect_algo := 255, iv := [1, 2, 3, 4, 5, 6, 7, 8] },
    randomize_buffer := fun i => Fin.ofNat (17 * i.val + 3),
    protect_secret_key := fun skc _ => (0, skc),
    build_packet := fun _ _ => 0,
    make_keysig_packet := fun _ _ _ c d =>
      (0, { sig_class := c, digest_algo := d, value := [1, 2] }),
    make_dek_from_passphrase := (-1, []),
    overwrite_filep := fun _ => 0,
    iobuf_create := fun _ => true,
    write_comment := fun _ _ => 0 }

/-- The operator of `karl_env`, but answering the key size prompt with "-1"
and confirming the size. -/
def minus_one_env : Env :=
  { karl_env with answers := ["", "-1", "yes", "Karl Test", "y"] }

/-- The system of `karl_env`, but `build_packet` fails (with code 20) for a
user id packet on the public stream. -/
def uid_write_fails_env : Env :=
  { karl_env with
    build_packet := fun out pkt =>
      match pkt with
      | PACKET.PKT_USER_ID _ => if out = some pub_fname then 20 else 0
      | _ => 0 }

/-- The system of `karl_env`, but `build_packet` fails (with code 20) for
every user id packet, on either stream. -/
def no_uid_written_env : Env :=
  { karl_env with
    build_packet := fun _ pkt =>
      match pkt with
      | PACKET.PKT_USER_ID _ => 20
      | _ => 0 }

/-- The system of `karl_env`, but `overwrite_filep` reports an error (code 1)
for the secret keyring. -/
def sec_check_error_env : Env :=
  { karl_env with overwrite_filep := fun f => if f = sec_fname then 1 else 0 }

/-- The system of `karl_env`, but `iobuf_create` delivers no stream for the
public keyring. -/
def no_pub_stream_env : Env :=
  { karl_env with iobuf_create := fun f => decide (f ≠ pub_fname) }

/-- The system of `karl_env`, but the operator declines to overwrite the
public keyring. -/
def pub_declined_env : Env :=
  { karl_env with overwrite_filep := fun f => if f = pub_fname then -1 else 0 }

/-- The run of `generate_keypair` in `karl_env`. -/
def karl_run : Run :=
  (generate_keypair karl_env).getD { exit := Exit.blocked, calls := [] }

/-- The run of `generate_keypair` in `pub_declined_env`. -/
def pub_declined_run : Run :=
  (generate_keypair pub_declined_env).getD { exit := Exit.blocked, calls := [] }

/-! ## Checksum lemmas -/

theorem byte_sum_cons (b : byte) (B : List byte) :
    byte_sum (b :: B) = b.val + byte_sum B := by
  simp [byte_sum]

theorem checksum_loop_length (B : List byte) :
    ∀ a : Nat, a < 65536 →
      checksum_loop a B B.length = some ((a + byte_sum B) % 65536) := by
  induction B with
  | nil =>
    intro a ha
    simp [checksum_loop, byte_sum, Nat.mod_eq_of_lt ha]
  | cons b p ih =>
    intro a _
    have hlt : to_u16 (a + b.val) < 65536 := Nat.mod_lt _ (by decide)
    simp only [List.length_cons, checksum_loop]
    rw [ih _ hlt, byte_sum_cons]
    simp only [to_u16]
    congr 1
    omega

theorem checksum_length (B : List byte) :
    checksum B B.length = some (byte_sum B % 65536) := by
  have h := checksum_loop_length B 0 (by decide)
  simpa [checksum] using h

theorem checksum_u16_eq (n : Nat) :
    checksum_u16 n = ((n / 256) % 256) ||| (n % 256) := by
  have h1 : (n >>> 8) &&& 0xff = (n / 256) % 256 := by
    rw [Nat.shiftRight_eq_div_pow]
    exact Nat.and_pow_two_sub_one_eq_mod _ 8
  have h2 : n &&& 0xff = n % 256 := Nat.and_pow_two_sub_one_eq_mod _ 8
  have hb : ((n / 256) % 256) ||| (n % 256) < 2 ^ 8 :=
    Nat.or_lt_two_pow (Nat.mod_lt _ (by decide)) (Nat.mod_lt _ (by decide))
  have hm : (n / 256) % 256 % 65536 = (n / 256) % 256 := by omega
  simp only [checksum_u16, to_u16, h1, h2, hm]
  exact Nat.mod_eq_of_lt (lt_trans hb (by decide))

theorem checksum_u16_lt (n : Nat) : checksum_u16 n < 256 := by
  rw [checksum_u16_eq]
  have h : (n / 256) % 256 ||| n % 256 < 2 ^ 8 :=
    Nat.or_lt_two_pow (Nat.mod_lt _ (by decide)) (Nat.mod_lt _ (by decide))
  exact h

theorem checksum_u16_mod (n k : Nat) (hk : 16 ≤ k) :
    checksum_u16 (n % 2 ^ k) = checksum_u16 n := by
  obtain ⟨j, rfl⟩ := Nat.exists_eq_add_of_le hk
  have e : 2 ^ (16 + j) = 65536 * 2 ^ j := by rw [pow_add]; norm_num
  have h1 : n % 2 ^ (16 + j) / 256 % 256 = n / 256 % 256 := by
    rw [e]
    have := Nat.mod_mul_right_div_self n 65536 (2 ^ j)
    have h3 : n % (65536 * 2 ^ j) % 65536 = n % 65536 :=
      Nat.mod_mul_right_mod n 65536 (2 ^ j)
    omega
  have h2 : n % 2 ^ (16 + j) % 256 = n % 256 := by
    rw [e]
    have h3 : n % (65536 * 2 ^ j) % 65536 = n % 65536 :=
      Nat.mod_mul_right_mod n 65536 (2 ^ j)
    omega
  rw [checksum_u16_eq, checksum_u16_eq, h1, h2]

theorem checksum_mpi_eq (get : MPI → List byte) (a : MPI) :
    checksum_mpi get a = some (mpi_csum get a) := by
  unfold mpi_csum
  have h32 : checksum_u16 (to_unsigned ((get a).length * 8))
      = checksum_u16 (8 * (get a).length) := by
    have h := checksum_u16_mod ((get a).length * 8) 32 (by decide)
    have e : to_unsigned ((get a).length * 8) = (get a).length * 8 % 2 ^ 32 := rfl
    rw [e, h, Nat.mul_comm]
  simp only [checksum_mpi, checksum_length, Option.map_some', h32, to_u16]

/-! ## The checksum helpers: claims -/

/-- C4: for every byte buffer `B`, `checksum(B, n)` with `n` the length of `B`
is the sum of the bytes of `B` modulo 65536, and it is 0 for the empty
buffer. -/
theorem checksum_is_byte_sum_mod (B : List byte) :
    checksum B B.length = some (byte_sum B % 65536) ∧ checksum [] 0 = some 0 :=
  ⟨checksum_length B, rfl⟩

/-- C5: for every big integer `V` with byte serialization `B` of length `n`,
`checksum_mpi(V)` is `(checksum_u16(8*n) + checksum(B, n)) mod 65536`;
`checksum_u16(m)` is the bitwise OR of the two low bytes of `m` (for `m = 257`
it is 1, their sum is 2), it is below 256 and does not depend on the bits of
`m` above bit 15. -/
theorem checksum_mpi_is_length_plus_bytes (mpi_get_buffer : MPI → List byte) (V : MPI) :
    (∃ s, checksum (mpi_get_buffer V) (mpi_get_buffer V).length = some s ∧
      checksum_mpi mpi_get_buffer V
        = some ((checksum_u16 (8 * (mpi_get_buffer V).length) + s) % 65536)) ∧
    (∀ m, checksum_u16 m = (((m >>> 8) &&& 0xff) ||| (m &&& 0xff))) ∧
    checksum_u16 257 = 1 ∧
    (∀ m, checksum_u16 m < 256) ∧
    (∀ m, checksum_u16 m = checksum_u16 (m % 65536)) := by
  refine ⟨⟨_, checksum_length _, checksum_mpi_eq _ _⟩, ?_, by decide, checksum_u16_lt, ?_⟩
  · intro m
    rw [checksum_u16_eq, Nat.shiftRight_eq_div_pow]
    have h1 : m / 2 ^ 8 &&& 0xff = (m / 256) % 256 := Nat.and_pow_two_sub_one_eq_mod _ 8
    have h2 : m &&& 0xff = m % 256 := Nat.and_pow_two_sub_one_eq_mod _ 8
    rw [h1, h2]
  · intro m
    exact (checksum_u16_mod m 16 (le_refl 16)).symm

/-! ## The generators: lemmas -/

theorem gen_elg_built_eq (env : Env) (nbits : Nat) :
    gen_elg_built env nbits = some
      ({ timestamp := env.make_timestamp, valid_days := 0,
         pubkey_algo := PubkeyAlgo.PUBKEY_ALGO_ELGAMAL, mfx_zeroed := true,
         d := public_union.elg (env.elg_generate nbits).1.p (env.elg_generate nbits).1.g
                (env.elg_generate nbits).1.y },
       { p := (env.elg_generate nbits).2.p, g := (env.elg_generate nbits).2.g,
         y := (env.elg_generate nbits).2.y, x := (env.elg_generate nbits).2.x,
         csum := mpi_csum env.mpi_get_buffer (env.elg_generate nbits).2.x,
         prot := env.m_alloc_skc }) := by
  simp only [gen_elg_built, checksum_mpi_eq, Option.map_some']

theorem gen_rsa_built_eq (env : Env) (nbits : Nat) :
    gen_rsa_built env nbits = some
      ({ timestamp := env.make_timestamp, valid_days := 0,
         pubkey_algo := PubkeyAlgo.PUBKEY_ALGO_RSA, mfx_zeroed := true,
         d := public_union.rsa (env.rsa_generate nbits).1.n (env.rsa_generate nbits).1.e },
       { rsa_n := (env.rsa_generate nbits).2.n, rsa_e := (env.rsa_generate nbits).2.e,
         rsa_d := (env.rsa_generate nbits).2.d, rsa_p := (env.rsa_generate nbits).2.p,
         rsa_q := (env.rsa_generate nbits).2.q, rsa_u := (env.rsa_generate nbits).2.u,
         csum := to_u16 (to_u16 (to_u16
                  (mpi_csum env.mpi_get_buffer (env.rsa_generate nbits).2.d
                    + mpi_csum env.mpi_get_buffer (env.rsa_generate nbits).2.p)
                    + mpi_csum env.mpi_get_buffer (env.rsa_generate nbits).2.q)
                    + mpi_csum env.mpi_get_buffer (env.rsa_generate nbits).2.u),
         prot := env.m_alloc_skc }) := by
  simp only [gen_rsa_built, checksum_mpi_eq, Option.bind_eq_bind, Option.some_bind,
    Option.pure_def, bind_pure_comp, Option.map_eq_map, Option.map_some']

theorem serialized_secret_gen_serialize (env : Env) (pub_io sec_io : IOBUF)
    (pkc : PKT_public_cert) (skc : PKT_secret_cert) (ret : Option PKT_secret_cert)
    (calls : List Call) :
    serialized_secret (gen_serialize env pub_io sec_io pkc skc ret calls).calls
      = serialized_secret calls
        ++ (if env.build_packet pub_io (PACKET.PKT_PUBLIC_CERT pkc) = 0 then [skc] else []) := by
  unfold gen_serialize
  by_cases h1 : env.build_packet pub_io (PACKET.PKT_PUBLIC_CERT pkc) = 0
  · by_cases h2 : env.build_packet sec_io (PACKET.PKT_SECRET_CERT skc) = 0 <;>
      simp [h1, h2, serialized_secret, Call.secret_cert, List.filterMap_append]
  · simp [h1, serialized_secret, Call.secret_cert, List.filterMap_append]

theorem gen_elg_no_dek (env : Env) (nbits : Nat) (pub_io sec_io : IOBUF) :
    ∃ pkc v, gen_elg_built env nbits = some (pkc, v) ∧
      gen_elg env nbits pub_io sec_io none = some
        (gen_serialize env pub_io sec_io pkc
          (elg_cert env { v with prot := { v.prot with is_protected := 0, protect_algo := 0 } })
          (some (elg_cert env v)) [Call.elg_generate nbits]) := by
  refine ⟨_, _, gen_elg_built_eq env nbits, ?_⟩
  simp only [gen_elg, gen_elg_built_eq, Option.map_some', copy_secret_cert]

theorem gen_rsa_no_dek (env : Env) (nbits : Nat) (pub_io sec_io : IOBUF) :
    ∃ pkc v, gen_rsa_built env nbits = some (pkc, v) ∧
      gen_rsa env nbits pub_io sec_io none = some
        (gen_serialize env pub_io sec_io pkc
          (rsa_cert env { v with prot := { v.prot with is_protected := 0, protect_algo := 0 } })
          none [Call.rsa_generate nbits]) := by
  refine ⟨_, _, gen_rsa_built_eq env nbits, ?_⟩
  simp only [gen_rsa, gen_rsa_built_eq, Option.bind_eq_bind, Option.some_bind, Option.pure_def]

/-! ## The interactive part: lemmas -/

theorem ask_algo_prompts (have_rsa : Bool) (answers : List String) :
    ∀ calls : List Call, (∀ c ∈ calls, c.is_prompt = true) →
      ∀ c ∈ (ask_algo have_rsa calls answers).calls, c.is_prompt = true := by
  induction answers with
  | nil => intro calls h; simpa [ask_algo, Asked.calls] using h
  | cons a rest ih =>
    intro calls h
    have h2 : ∀ c ∈ calls ++ [Call.tty_get a], c.is_prompt = true := by
      intro c hc
      rcases List.mem_append.mp hc with hc | hc
      · exact h c hc
      · rw [List.mem_singleton.mp hc]; rfl
    unfold ask_algo
    simp only
    split_ifs <;> first | exact h2 | exact ih _ h2

theorem prompts_snoc (calls : List Call) (a : String)
    (h : ∀ c ∈ calls, c.is_prompt = true) :
    ∀ c ∈ calls ++ [Call.tty_get a], c.is_prompt = true := by
  intro c hc
  rcases List.mem_append.mp hc with hc | hc
  · exact h c hc
  · rw [List.mem_singleton.mp hc]; rfl

theorem ask_keysize_prompts_aux (n : Nat) :
    ∀ (answers : List String) (calls : List Call), answers.length ≤ n →
      (∀ c ∈ calls, c.is_prompt = true) →
      ∀ c ∈ (ask_keysize calls answers).calls, c.is_prompt = true := by
  induction n with
  | zero =>
    intro answers calls hl h
    have : answers = [] := List.length_eq_zero.mp (Nat.le_zero.mp hl)
    subst this
    simpa [ask_keysize, Asked.calls] using h
  | succ n ih =>
    intro answers calls hl h
    match answers with
    | [] => simpa [ask_keysize, Asked.calls] using h
    | a :: rest =>
      have hr : rest.length ≤ n := by simpa using hl
      have h2 := prompts_snoc calls a h
      unfold ask_keysize
      simp only
      split_ifs
      all_goals first
        | exact h2
        | exact ih rest _ hr h2
        | (cases rest with
           | nil => exact h2
           | cons b rest2 =>
             have hr2 : rest2.length ≤ n := by
               simp only [List.length_cons] at hr
               omega
             have h3 := prompts_snoc _ b h2
             simp only
             split_ifs
             · exact h3
             · exact ih rest2 _ hr2 h3)

theorem ask_keysize_prompts (answers : List String) (calls : List Call)
    (h : ∀ c ∈ calls, c.is_prompt = true) :
    ∀ c ∈ (ask_keysize calls answers).calls, c.is_prompt = true :=
  ask_keysize_prompts_aux answers.length answers calls (le_refl _) h

theorem ask_uid_prompts_aux (n : Nat) :
    ∀ (answers : List String) (calls : List Call), answers.length ≤ n →
      (∀ c ∈ calls, c.is_prompt = true) →
      ∀ c ∈ (ask_uid calls answers).calls, c.is_prompt = true := by
  induction n with
  | zero =>
    intro answers calls hl h
    have : answers = [] := List.length_eq_zero.mp (Nat.le_zero.mp hl)
    subst this
    simpa [ask_uid, Asked.calls] using h
  | succ n ih =>
    intro answers calls hl h
    match answers with
    | [] => simpa [ask_uid, Asked.calls] using h
    | a :: rest =>
      have hr : rest.length ≤ n := by simpa using hl
      have h2 := prompts_snoc calls a h
      unfold ask_uid
      simp only
      split_ifs
      all_goals first
        | exact h2
        | exact ih rest _ hr h2
        | (cases rest with
           | nil => exact h2
           | cons b rest2 =>
             have hr2 : rest2.length ≤ n := by
               simp only [List.length_cons] at hr
               omega
             have h3 := prompts_snoc _ b h2
             simp only
             split_ifs
             · exact h3
             · exact ih rest2 _ hr2 h3)

theorem ask_uid_prompts (answers : List String) (calls : List Call)
    (h : ∀ c ∈ calls, c.is_prompt = true) :
    ∀ c ∈ (ask_uid calls answers).calls, c.is_prompt = true :=
  ask_uid_prompts_aux answers.length answers calls (le_refl _) h

/-- A run either ends in the interactive part, having made prompt calls only,
or reaches the preparation of the keyrings after prompt calls only. -/
theorem generate_keypair_cases (env : Env) (r : Run) (h : generate_keypair env = some r) :
    (∀ c ∈ r.calls, c.is_prompt = true) ∨
    ∃ algo nbits uid dek calls, (∀ c ∈ calls, c.is_prompt = true) ∧
      prepare_keyrings env algo nbits uid dek calls = some r := by
  unfold generate_keypair at h
  split_ifs at h with hb
  · left
    cases h
    intro c hc
    cases hc
  · have hA := ask_algo_prompts env.HAVE_RSA_CIPHER env.answers [] (by intro c hc; cases hc)
    cases hAe : ask_algo env.HAVE_RSA_CIPHER [] env.answers with
    | blocked calls =>
      rw [hAe] at h hA
      left
      cases h
      exact hA
    | done algo answers calls =>
      rw [hAe] at h hA
      simp only at h
      have hK := ask_keysize_prompts answers calls hA
      cases hKe : ask_keysize calls answers with
      | blocked calls2 =>
        rw [hKe] at h hK
        left
        cases h
        exact hK
      | done nbits answers2 calls2 =>
        rw [hKe] at h hK
        simp only at h
        have hU := ask_uid_prompts answers2 calls2 hK
        cases hUe : ask_uid calls2 answers2 with
        | blocked calls3 =>
          rw [hUe] at h hU
          left
          cases h
          exact hU
        | done uid answers3 calls3 =>
          rw [hUe] at h hU
          simp only at h
          have hD : ∀ c ∈ calls3 ++ [Call.make_dek_from_passphrase env.make_dek_from_passphrase.1],
              c.is_prompt = true := by
            intro c hc
            rcases List.mem_append.mp hc with hc | hc
            · exact hU c hc
            · rw [List.mem_singleton.mp hc]; rfl
          split_ifs at h
          · exact Or.inr ⟨_, _, _, _, _, hD, h⟩
          · left
            cases h
            exact hD
          · exact Or.inr ⟨_, _, _, _, _, hD, h⟩

/-! ## Shape of what the generators record -/

theorem gen_serialize_shape (env : Env) (nbits : Nat) (pub_io sec_io : IOBUF)
    (pkc : PKT_public_cert) (skc : PKT_secret_cert) (ret : Option PKT_secret_cert)
    (pre : List Call)
    (h1 : ∀ c ∈ pre, c.is_generator_call = true)
    (h2 : generator_nbits pre = [nbits])
    (h3 : ∀ c ∈ pre, c.write_rc = 0)
    (h4 : ∀ a, stream_writes a pre = []) :
    GenShape nbits pub_io sec_io (gen_serialize env pub_io sec_io pkc skc ret pre) := by
  unfold gen_serialize GenShape
  simp only
  split_ifs with hp hs
  · refine ⟨?_, ?_, ?_⟩
    · intro c hc
      rcases List.mem_append.mp hc with hc | hc
      · exact h1 c hc
      · rw [List.mem_singleton.mp hc]; rfl
    · simp [generator_nbits, List.filterMap_append, Call.generates] at h2 ⊢
      exact h2
    · intro h0
      exact absurd h0 hp
  · refine ⟨?_, ?_, ?_⟩
    · intro c hc
      simp only [List.mem_append, List.mem_singleton] at hc
      rcases hc with (hc | hc) | hc
      · exact h1 c hc
      · rw [hc]; rfl
      · rw [hc]; rfl
    · simp [generator_nbits, List.filterMap_append, Call.generates] at h2 ⊢
      exact h2
    · intro h0
      exact absurd h0 hs
  · refine ⟨?_, ?_, ?_⟩
    · intro c hc
      simp only [List.mem_append, List.mem_singleton] at hc
      rcases hc with (hc | hc) | hc
      · exact h1 c hc
      · rw [hc]; rfl
      · rw [hc]; rfl
    · simp [generator_nbits, List.filterMap_append, Call.generates] at h2 ⊢
      exact h2
    · intro _
      have hp0 : env.build_packet pub_io (PACKET.PKT_PUBLIC_CERT pkc) = 0 := not_not.mp hp
      have hs0 : env.build_packet sec_io (PACKET.PKT_SECRET_CERT skc) = 0 := not_not.mp hs
      refine ⟨?_, ?_⟩
      · intro c hc
        simp only [List.mem_append, List.mem_singleton] at hc
        rcases hc with (hc | hc) | hc
        · exact h3 c hc
        · rw [hc]; exact hp0
        · rw [hc]; exact hs0
      · intro a
        have h4a := h4 a
        simp only [stream_writes] at h4a
        simp only [stream_writes, List.filterMap_append, h4a, List.nil_append]
        by_cases e1 : pub_io = a <;> by_cases e2 : sec_io = a <;>
          simp [List.filterMap_cons, Call.writes, PACKET.tag, e1, e2]

theorem gen_elg_shape (env : Env) (nbits : Nat) (pub_io sec_io : IOBUF) (dek : Option DEK)
    (g : GenResult) (h : gen_elg env nbits pub_io sec_io dek = some g) :
    GenShape nbits pub_io sec_io g := by
  simp only [gen_elg, gen_elg_built_eq, Option.map_some'] at h
  cases dek with
  | none =>
    simp only [Option.some.injEq] at h
    rw [← h]
    apply gen_serialize_shape <;> simp [generator_nbits, stream_writes, Call.generates,
      Call.is_generator_call, Call.write_rc, Call.writes]
  | some dek =>
    simp only [Option.some.injEq] at h
    split_ifs at h with hr
    · rw [← h]
      refine ⟨?_, ?_, ?_⟩
      · simp [Call.is_generator_call]
      · simp [generator_nbits, Call.generates]
      · intro h0
        exact absurd h0 hr
    · rw [← h]
      apply gen_serialize_shape <;> simp [generator_nbits, stream_writes, Call.generates,
        Call.is_generator_call, Call.write_rc, Call.writes]

theorem checksum_iv (f : Fin 8 → byte) :
    checksum (List.ofFn f) 8 = some (byte_sum (List.ofFn f) % 65536) := by
  have h := checksum_length (List.ofFn f)
  rw [List.length_ofFn] at h
  exact h

theorem gen_rsa_shape (env : Env) (nbits : Nat) (pub_io sec_io : IOBUF) (dek : Option DEK)
    (g : GenResult) (h : gen_rsa env nbits pub_io sec_io dek = some g) :
    GenShape nbits pub_io sec_io g := by
  cases dek with
  | none =>
    simp only [gen_rsa, gen_rsa_built_eq, Option.bind_eq_bind, Option.some_bind,
      Option.pure_def, Option.some.injEq] at h
    rw [← h]
    apply gen_serialize_shape <;> simp [generator_nbits, stream_writes, Call.generates,
      Call.is_generator_call, Call.write_rc, Call.writes]
  | some dek =>
    simp only [gen_rsa, gen_rsa_built_eq, checksum_iv, Option.bind_eq_bind, Option.some_bind,
      Option.pure_def] at h
    split_ifs at h with hr
    · simp only [Option.some.injEq] at h
      rw [← h]
      refine ⟨?_, ?_, ?_⟩
      · simp [Call.is_generator_call]
      · simp [generator_nbits, Call.generates]
      · intro h0
        exact absurd h0 hr
    · simp only [Option.some.injEq] at h
      rw [← h]
      apply gen_serialize_shape <;> simp [generator_nbits, stream_writes, Call.generates,
        Call.is_generator_call, Call.write_rc, Call.writes]

theorem gen_elg_total (env : Env) (nbits : Nat) (pub_io sec_io : IOBUF) (dek : Option DEK) :
    ∃ g, gen_elg env nbits pub_io sec_io dek = some g := by
  simp only [gen_elg, gen_elg_built_eq, Option.map_some']
  exact ⟨_, rfl⟩

theorem gen_rsa_total (env : Env) (nbits : Nat) (pub_io sec_io : IOBUF) (dek : Option DEK) :
    ∃ g, gen_rsa env nbits pub_io sec_io dek = some g := by
  cases dek with
  | none =>
    simp only [gen_rsa, gen_rsa_built_eq, Option.bind_eq_bind, Option.some_bind,
      Option.pure_def]
    exact ⟨_, rfl⟩
  | some dek =>
    simp only [gen_rsa, gen_rsa_built_eq, checksum_iv, Option.bind_eq_bind, Option.some_bind,
      Option.pure_def]
    split_ifs <;> exact ⟨_, rfl⟩

/-! ## Shape of what the final steps record -/

/-- The steps after the generator end with the close of both streams or with
the cancel of both; in between only `write_uid` and `write_selfsig` made
calls, and when the streams are closed these are the two user id writes, the
signature build and the (successful) signature write. -/
theorem finish_keypair_calls (env : Env) (pub_io sec_io : IOBUF) (uid : String)
    (calls : List Call) (g : GenResult) :
    (finish_keypair env pub_io sec_io uid calls g).exit = Exit.returned ∧
    ∃ mid, (∀ c ∈ mid, c.is_sign_call = true) ∧
      (((finish_keypair env pub_io sec_io uid calls g).calls
          = calls ++ g.calls ++ mid ++ [Call.iobuf_close pub_io, Call.iobuf_close sec_io] ∧
        g.rc = 0 ∧
        (∃ r1 r2 pkc u skc sig,
          mid = [Call.build_packet pub_io (uid_packet uid) r1,
                 Call.build_packet sec_io (uid_packet uid) r2,
                 Call.make_keysig_packet pkc u skc 0,
                 Call.build_packet pub_io (PACKET.PKT_SIGNATURE sig) 0]))
      ∨ ((finish_keypair env pub_io sec_io uid calls g).calls
          = calls ++ g.calls ++ mid ++ [Call.iobuf_cancel pub_io, Call.iobuf_cancel sec_io])) := by
  by_cases hg : g.rc = 0
  · by_cases hk : (env.make_keysig_packet g.ret_pkc (some { len := strlen uid, name := uid })
              g.ret_skc 0x13 env.DIGEST_ALGO_RMD160).1 = 0
    · by_cases hb : env.build_packet pub_io (PACKET.PKT_SIGNATURE (env.make_keysig_packet g.ret_pkc (some { len := strlen uid, name := uid })
              g.ret_skc 0x13 env.DIGEST_ALGO_RMD160).2) = 0
      · refine ⟨?_, [Call.build_packet pub_io (uid_packet uid) (env.build_packet pub_io (uid_packet uid)),
            Call.build_packet sec_io (uid_packet uid) (env.build_packet sec_io (uid_packet uid)),
            Call.make_keysig_packet g.ret_pkc (some { len := strlen uid, name := uid }) g.ret_skc 0,
            Call.build_packet pub_io (PACKET.PKT_SIGNATURE (env.make_keysig_packet g.ret_pkc (some { len := strlen uid, name := uid })
              g.ret_skc 0x13 env.DIGEST_ALGO_RMD160).2) 0], ?_,
            Or.inl ⟨?_, hg, ⟨_, _, _, _, _, _, rfl⟩⟩⟩
        · simp [finish_keypair, write_uid, write_selfsig, hg, hk, hb]
        · simp [Call.is_sign_call]
        · simp [finish_keypair, write_uid, write_selfsig, hg, hk, hb, uid_packet]
      · refine ⟨?_, [Call.build_packet pub_io (uid_packet uid) (env.build_packet pub_io (uid_packet uid)),
            Call.build_packet sec_io (uid_packet uid) (env.build_packet sec_io (uid_packet uid)),
            Call.make_keysig_packet g.ret_pkc (some { len := strlen uid, name := uid }) g.ret_skc 0,
            Call.build_packet pub_io (PACKET.PKT_SIGNATURE (env.make_keysig_packet g.ret_pkc (some { len := strlen uid, name := uid })
              g.ret_skc 0x13 env.DIGEST_ALGO_RMD160).2) (env.build_packet pub_io (PACKET.PKT_SIGNATURE (env.make_keysig_packet g.ret_pkc (some { len := strlen uid, name := uid })
              g.ret_skc 0x13 env.DIGEST_ALGO_RMD160).2))], ?_, Or.inr ?_⟩
        · simp [finish_keypair, write_uid, write_selfsig, hg, hk, hb]
        · simp [Call.is_sign_call]
        · simp [finish_keypair, write_uid, write_selfsig, hg, hk, hb, uid_packet]
    · refine ⟨?_, [Call.build_packet pub_io (uid_packet uid) (env.build_packet pub_io (uid_packet uid)),
          Call.build_packet sec_io (uid_packet uid) (env.build_packet sec_io (uid_packet uid)),
          Call.make_keysig_packet g.ret_pkc (some { len := strlen uid, name := uid }) g.ret_skc (env.make_keysig_packet g.ret_pkc (some { len := strlen uid, name := uid })
              g.ret_skc 0x13 env.DIGEST_ALGO_RMD160).1], ?_, Or.inr ?_⟩
      · simp [finish_keypair, write_uid, write_selfsig, hg, hk]
      · simp [Call.is_sign_call]
      · simp [finish_keypair, write_uid, write_selfsig, hg, hk, uid_packet]
  · refine ⟨?_, [], ?_, Or.inr ?_⟩
    · simp [finish_keypair, hg]
    · simp
    · simp [finish_keypair, hg]

/-- Shape of the calls `write_keyrings` adds to `calls`: the comment headers,
the calls of the generator, the calls of `write_uid` and `write_selfsig`, and
then the close of both streams or the cancel of both. -/
theorem write_keyrings_calls (env : Env) (algo : PubkeyAlgo) (nbits : Nat) (uid : String)
    (dek : Option DEK) (pub_io sec_io : IOBUF) (calls : List Call) (r : Run)
    (h : write_keyrings env algo nbits uid dek pub_io sec_io calls = some r) :
    (r.exit = Exit.bug ∧ r.calls = calls ++ comment_calls env pub_io sec_io) ∨
    (r.exit = Exit.returned ∧
      ∃ g mid, GenShape nbits pub_io sec_io g ∧ (∀ c ∈ mid, c.is_sign_call = true) ∧
        ((r.calls = calls ++ comment_calls env pub_io sec_io ++ g.calls ++ mid
              ++ [Call.iobuf_close pub_io, Call.iobuf_close sec_io] ∧
          g.rc = 0 ∧
          (∃ r1 r2 pkc u skc sig,
            mid = [Call.build_packet pub_io (uid_packet uid) r1,
                   Call.build_packet sec_io (uid_packet uid) r2,
                   Call.make_keysig_packet pkc u skc 0,
                   Call.build_packet pub_io (PACKET.PKT_SIGNATURE sig) 0]))
        ∨ r.calls = calls ++ comment_calls env pub_io sec_io ++ g.calls ++ mid
              ++ [Call.iobuf_cancel pub_io, Call.iobuf_cancel sec_io])) := by
  have key : ∀ g, GenShape nbits pub_io sec_io g →
      r = finish_keypair env pub_io sec_io uid (calls ++ comment_calls env pub_io sec_io) g →
      (r.exit = Exit.returned ∧
      ∃ g mid, GenShape nbits pub_io sec_io g ∧ (∀ c ∈ mid, c.is_sign_call = true) ∧
        ((r.calls = calls ++ comment_calls env pub_io sec_io ++ g.calls ++ mid
              ++ [Call.iobuf_close pub_io, Call.iobuf_close sec_io] ∧
          g.rc = 0 ∧
          (∃ r1 r2 pkc u skc sig,
            mid = [Call.build_packet pub_io (uid_packet uid) r1,
                   Call.build_packet sec_io (uid_packet uid) r2,
                   Call.make_keysig_packet pkc u skc 0,
                   Call.build_packet pub_io (PACKET.PKT_SIGNATURE sig) 0]))
        ∨ r.calls = calls ++ comment_calls env pub_io sec_io ++ g.calls ++ mid
              ++ [Call.iobuf_cancel pub_io, Call.iobuf_cancel sec_io])) := by
    intro g hshape hr
    obtain ⟨hexit, mid, hmid, hcalls⟩ :=
      finish_keypair_calls env pub_io sec_io uid (calls ++ comment_calls env pub_io sec_io) g
    rw [← hr] at hexit hcalls
    exact ⟨hexit, g, mid, hshape, hmid, hcalls⟩
  unfold write_keyrings at h
  simp only [List.append_assoc, List.singleton_append] at h
  have hcc : calls ++ comment_calls env pub_io sec_io
      = calls ++ (Call.write_comment pub_io ("#public key created by G10 pre-release " ++ env.VERSION)
          (env.write_comment pub_io ("#public key created by G10 pre-release " ++ env.VERSION))
        :: [Call.write_comment sec_io ("#secret key created by G10 pre-release " ++ env.VERSION)
          (env.write_comment sec_io ("#secret key created by G10 pre-release " ++ env.VERSION))]) := rfl
  cases algo with
  | PUBKEY_ALGO_ELGAMAL =>
    simp only at h
    obtain ⟨g, hg⟩ := gen_elg_total env nbits pub_io sec_io dek
    rw [hg, Option.map_some', Option.some.injEq, ← hcc] at h
    exact Or.inr (key g (gen_elg_shape _ _ _ _ _ _ hg) h.symm)
  | PUBKEY_ALGO_RSA =>
    simp only at h
    split_ifs at h
    · obtain ⟨g, hg⟩ := gen_rsa_total env nbits pub_io sec_io dek
      rw [hg, Option.map_some', Option.some.injEq, ← hcc] at h
      exact Or.inr (key g (gen_rsa_shape _ _ _ _ _ _ hg) h.symm)
    · left
      rw [Option.some.injEq] at h
      rw [← h, hcc]
      exact ⟨rfl, rfl⟩

/-- The four ways the preparation of the keyrings can go. -/
theorem prepare_keyrings_cases (env : Env) (algo : PubkeyAlgo) (nbits : Nat) (uid : String)
    (dek : Option DEK) (calls : List Call) (r : Run)
    (h : prepare_keyrings env algo nbits uid dek calls = some r) :
    (env.overwrite_filep pub_fname ≠ 0 ∧ r.exit = Exit.returned ∧
      r.calls = calls ++ [Call.overwrite_filep pub_fname (env.overwrite_filep pub_fname)]) ∨
    (env.overwrite_filep pub_fname = 0 ∧ env.overwrite_filep sec_fname ≠ 0 ∧
      env.overwrite_filep sec_fname ≠ -1 ∧ r.exit = Exit.returned ∧
      r.calls = calls ++ prepare_calls env) ∨
    (env.overwrite_filep pub_fname = 0 ∧ env.overwrite_filep sec_fname = -1 ∧
      r.exit = Exit.returned ∧
      r.calls = calls ++ prepare_calls env ++ [Call.iobuf_cancel (pub_stream env)]) ∨
    (env.overwrite_filep pub_fname = 0 ∧ env.overwrite_filep sec_fname = 0 ∧
      write_keyrings env algo nbits uid dek (pub_stream env) (sec_stream env)
        (calls ++ prepare_calls env ++ [Call.iobuf_create sec_fname (sec_stream env)])
        = some r) := by
  unfold prepare_keyrings at h
  simp only at h
  by_cases hp : env.overwrite_filep pub_fname = 0
  · rw [if_pos hp] at h
    right
    by_cases hs : env.overwrite_filep sec_fname = 0
    · rw [if_pos hs] at h
      right; right
      refine ⟨hp, hs, ?_⟩
      rw [← h]
      simp [prepare_calls, pub_stream, sec_stream, hp, hs]
    · rw [if_neg hs] at h
      by_cases hd : env.overwrite_filep sec_fname = -1
      · right; left
        rw [if_neg (not_not.mpr hd), Option.some.injEq] at h
        rw [← h]
        refine ⟨hp, hd, rfl, ?_⟩
        simp [prepare_calls, pub_stream, hp, hd]
      · left
        rw [if_pos hd, Option.some.injEq] at h
        rw [← h]
        refine ⟨hp, hs, hd, rfl, ?_⟩
        simp [prepare_calls, pub_stream, hp]
  · left
    rw [if_neg hp] at h
    have h2 : r = Run.mk Exit.returned
        (calls ++ [Call.overwrite_filep pub_fname (env.overwrite_filep pub_fname)]) := by
      split_ifs at h <;> exact (Option.some.inj h).symm
    rw [h2]
    exact ⟨hp, rfl, rfl⟩

theorem write_keyrings_total (env : Env) (algo : PubkeyAlgo) (nbits : Nat) (uid : String)
    (dek : Option DEK) (pub_io sec_io : IOBUF) (calls : List Call) :
    ∃ r, write_keyrings env algo nbits uid dek pub_io sec_io calls = some r := by
  unfold write_keyrings
  cases algo with
  | PUBKEY_ALGO_ELGAMAL =>
    obtain ⟨g, hg⟩ := gen_elg_total env nbits pub_io sec_io dek
    simp only [hg, Option.map_some']
    exact ⟨_, rfl⟩
  | PUBKEY_ALGO_RSA =>
    obtain ⟨g, hg⟩ := gen_rsa_total env nbits pub_io sec_io dek
    simp only [hg, Option.map_some']
    split_ifs <;> exact ⟨_, rfl⟩

theorem prepare_keyrings_total (env : Env) (algo : PubkeyAlgo) (nbits : Nat) (uid : String)
    (dek : Option DEK) (calls : List Call) :
    ∃ r, prepare_keyrings env algo nbits uid dek calls = some r := by
  unfold prepare_keyrings
  simp only
  split_ifs
  all_goals first
    | exact write_keyrings_total _ _ _ _ _ _ _ _
    | exact ⟨_, rfl⟩

/-- The model of `generate_keypair` gives a run in every environment. -/
theorem generate_keypair_total (env : Env) : ∃ r, generate_keypair env = some r := by
  unfold generate_keypair
  split_ifs
  · exact ⟨_, rfl⟩
  · cases ask_algo env.HAVE_RSA_CIPHER [] env.answers with
    | blocked calls => exact ⟨_, rfl⟩
    | done algo answers calls =>
      simp only
      cases ask_keysize calls answers with
      | blocked calls2 => exact ⟨_, rfl⟩
      | done nbits answers2 calls2 =>
        simp only
        cases ask_uid calls2 answers2 with
        | blocked calls3 => exact ⟨_, rfl⟩
        | done uid answers3 calls3 =>
          simp only
          split_ifs
          · exact prepare_keyrings_total _ _ _ _ _ _
          · exact ⟨_, rfl⟩
          · exact prepare_keyrings_total _ _ _ _ _ _

theorem filterMap_prompts {β : Type} (f : Call → Option β)
    (hf : ∀ c, c.is_prompt = true → f c = none) :
    ∀ calls : List Call, (∀ c ∈ calls, c.is_prompt = true) → calls.filterMap f = [] := by
  intro calls
  induction calls with
  | nil => intro _; rfl
  | cons c cs ih =>
    intro h
    rw [List.filterMap_cons, hf c (h c (List.mem_cons_self _ _))]
    exact ih (fun d hd => h d (List.mem_cons_of_mem _ hd))

theorem pub_ne_sec : pub_fname ≠ sec_fname := by decide

theorem output_of_generator_call (c : Call) (h : c.is_generator_call = true) :
    c.is_output_call = true := by
  cases c <;> first | rfl | cases h

theorem output_of_sign_call (c : Call) (h : c.is_sign_call = true) :
    c.is_output_call = true := by
  cases c <;> first | rfl | cases h

/-- Everything `write_keyrings` adds to `calls` is an output call. -/
theorem write_keyrings_output_calls (env : Env) (algo : PubkeyAlgo) (nbits : Nat)
    (uid : String) (dek : Option DEK) (pub_io sec_io : IOBUF) (calls : List Call) (r : Run)
    (h : write_keyrings env algo nbits uid dek pub_io sec_io calls = some r) :
    ∃ tail, r.calls = calls ++ tail ∧ ∀ c ∈ tail, c.is_output_call = true := by
  have hcc : ∀ c ∈ comment_calls env pub_io sec_io, c.is_output_call = true := by
    intro c hc
    simp only [comment_calls, List.mem_cons, List.mem_singleton, List.not_mem_nil,
      or_false] at hc
    rcases hc with hc | hc <;> rw [hc] <;> rfl
  rcases write_keyrings_calls env algo nbits uid dek pub_io sec_io calls r h with
    ⟨_, hc⟩ | ⟨_, g, mid, hg, hmid, hc⟩
  · exact ⟨_, hc, hcc⟩
  · rcases hc with ⟨hc, _, _⟩ | hc
    · refine ⟨comment_calls env pub_io sec_io ++ g.calls ++ mid
        ++ [Call.iobuf_close pub_io, Call.iobuf_close sec_io], ?_, ?_⟩
      · rw [hc]; simp only [List.append_assoc]
      · intro c hc2
        simp only [List.mem_append, List.mem_cons, List.mem_singleton, List.not_mem_nil,
          or_false] at hc2
        rcases hc2 with ((hc2 | hc2) | hc2) | hc2 | hc2
        · exact hcc c hc2
        · exact output_of_generator_call c (hg.1 c hc2)
        · exact output_of_sign_call c (hmid c hc2)
        · rw [hc2]; rfl
        · rw [hc2]; rfl
    · refine ⟨comment_calls env pub_io sec_io ++ g.calls ++ mid
        ++ [Call.iobuf_cancel pub_io, Call.iobuf_cancel sec_io], ?_, ?_⟩
      · rw [hc]; simp only [List.append_assoc]
      · intro c hc2
        simp only [List.mem_append, List.mem_cons, List.mem_singleton, List.not_mem_nil,
          or_false] at hc2
        rcases hc2 with ((hc2 | hc2) | hc2) | hc2 | hc2
        · exact hcc c hc2
        · exact output_of_generator_call c (hg.1 c hc2)
        · exact output_of_sign_call c (hmid c hc2)
        · rw [hc2]; rfl
        · rw [hc2]; rfl

theorem not_mem_prepare_calls (env : Env) (h0 : env.overwrite_filep pub_fname = 0) :
    Call.overwrite_filep pub_fname (-1) ∉ prepare_calls env := by
  intro hd
  simp only [prepare_calls, List.mem_cons, List.mem_singleton, List.not_mem_nil, or_false,
    Call.overwrite_filep.injEq, h0, reduceCtorEq, false_or] at hd
  rcases hd with hd | hd
  · simp at hd
  · exact pub_ne_sec hd.1

theorem closed_iff (f : String) (cs : List Call) :
    closed f cs = true ↔ Call.iobuf_close (some f) ∈ cs := by
  simp [closed]

theorem cancelled_iff (f : String) (cs : List Call) :
    cancelled f cs = true ↔ Call.iobuf_cancel (some f) ∈ cs := by
  simp [cancelled]

theorem close_not_in_prompts (a : IOBUF) (calls : List Call)
    (hp : ∀ c ∈ calls, c.is_prompt = true) : Call.iobuf_close a ∉ calls :=
  fun hm => absurd (hp _ hm) (by simp [Call.is_prompt])

theorem close_not_in_prepare (env : Env) (a : IOBUF) :
    Call.iobuf_close a ∉ prepare_calls env := by
  simp [prepare_calls]

theorem sec_stream_ne_pub (env : Env) : sec_stream env ≠ some pub_fname := by
  unfold sec_stream
  split_ifs
  · intro h
    exact pub_ne_sec (Option.some.inj h).symm
  · intro h
    cases h

theorem pub_stream_ne_sec (env : Env) : pub_stream env ≠ some sec_fname := by
  unfold pub_stream
  split_ifs
  · intro h
    exact pub_ne_sec (Option.some.inj h)
  · intro h
    cases h

/-- A run that closes both keyring streams made, after its prompts, exactly
these calls: the two overwrite checks and stream creations, the two comment
headers, the calls of a generator that returned 0, the two user id writes,
the signature build and write, and the two closes. -/
theorem closed_run_calls (env : Env) (r : Run) (h : generate_keypair env = some r)
    (hp : closed pub_fname r.calls = true) (hs : closed sec_fname r.calls = true) :
    r.exit = Exit.returned ∧
    ∃ calls nbits g uid r1 r2 pkc upkt skc sig,
      (∀ c ∈ calls, c.is_prompt = true) ∧
      GenShape nbits (some pub_fname) (some sec_fname) g ∧ g.rc = 0 ∧
      r.calls = calls
        ++ [Call.overwrite_filep pub_fname 0, Call.iobuf_create pub_fname (some pub_fname),
            Call.overwrite_filep sec_fname 0, Call.iobuf_create sec_fname (some sec_fname)]
        ++ comment_calls env (some pub_fname) (some sec_fname)
        ++ g.calls
        ++ [Call.build_packet (some pub_fname) (uid_packet uid) r1,
            Call.build_packet (some sec_fname) (uid_packet uid) r2,
            Call.make_keysig_packet pkc upkt skc 0,
            Call.build_packet (some pub_fname) (PACKET.PKT_SIGNATURE sig) 0]
        ++ [Call.iobuf_close (some pub_fname), Call.iobuf_close (some sec_fname)] := by
  rw [closed_iff] at hp hs
  rcases generate_keypair_cases env r h with hq | ⟨algo, nbits, uid, dek, calls, hq, hr⟩
  · exact absurd hp (close_not_in_prompts _ _ hq)
  · have hnc : ∀ a, Call.iobuf_close a ∉ calls := fun a => close_not_in_prompts a calls hq
    have hnp : ∀ a, Call.iobuf_close a ∉ prepare_calls env := close_not_in_prepare env
    rcases prepare_keyrings_cases env algo nbits uid dek calls r hr with
      ⟨_, _, hc⟩ | ⟨_, _, _, _, hc⟩ | ⟨_, _, _, hc⟩ | ⟨h0, h1, hw⟩
    · exfalso
      rw [hc] at hp
      rcases List.mem_append.mp hp with hp | hp
      · exact hnc _ hp
      · simp at hp
    · exfalso
      rw [hc] at hp
      rcases List.mem_append.mp hp with hp | hp
      · exact hnc _ hp
      · exact hnp _ hp
    · exfalso
      rw [hc] at hp
      rcases List.mem_append.mp hp with hp | hp
      · rcases List.mem_append.mp hp with hp | hp
        · exact hnc _ hp
        · exact hnp _ hp
      · simp at hp
    · have hpre : ∀ a, Call.iobuf_close a ∉
          calls ++ prepare_calls env ++ [Call.iobuf_create sec_fname (sec_stream env)] := by
        intro a hm
        rcases List.mem_append.mp hm with hm | hm
        · rcases List.mem_append.mp hm with hm | hm
          · exact hnc _ hm
          · exact hnp _ hm
        · simp at hm
      have hcc : ∀ a, Call.iobuf_close a ∉ comment_calls env (pub_stream env) (sec_stream env) := by
        intro a hm
        simp [comment_calls] at hm
      rcases write_keyrings_calls _ _ _ _ _ _ _ _ _ hw with
        ⟨_, hc⟩ | ⟨he, g, mid, hg, hmid, hc⟩
      · exfalso
        rw [hc] at hp
        rcases List.mem_append.mp hp with hp | hp
        · exact hpre _ hp
        · exact hcc _ hp
      · have hgc : ∀ a, Call.iobuf_close a ∉ g.calls := fun a hm =>
          absurd (hg.1 _ hm) (by simp [Call.is_generator_call])
        have hmc : ∀ a, Call.iobuf_close a ∉ mid := fun a hm =>
          absurd (hmid _ hm) (by simp [Call.is_sign_call])
        have hbody : ∀ a, Call.iobuf_close a ∉
            calls ++ prepare_calls env ++ [Call.iobuf_create sec_fname (sec_stream env)]
              ++ comment_calls env (pub_stream env) (sec_stream env) ++ g.calls ++ mid := by
          intro a hm
          rcases List.mem_append.mp hm with hm | hm
          · rcases List.mem_append.mp hm with hm | hm
            · rcases List.mem_append.mp hm with hm | hm
              · exact hpre _ hm
              · exact hcc _ hm
            · exact hgc _ hm
          · exact hmc _ hm
        rcases hc with ⟨hc, hrc, r1, r2, pkc, upkt, skc, sig, hmidv⟩ | hc
        · have hpub : pub_stream env = some pub_fname := by
            rw [hc] at hp
            rcases List.mem_append.mp hp with hp | hp
            · exact absurd hp (hbody _)
            · simp only [List.mem_cons, List.mem_singleton, Call.iobuf_close.injEq,
                List.not_mem_nil, or_false] at hp
              rcases hp with hp | hp
              · exact hp.symm
              · exact absurd hp.symm (sec_stream_ne_pub env)
          have hsec : sec_stream env = some sec_fname := by
            rw [hc] at hs
            rcases List.mem_append.mp hs with hs | hs
            · exact absurd hs (hbody _)
            · simp only [List.mem_cons, List.mem_singleton, Call.iobuf_close.injEq,
                List.not_mem_nil, or_false] at hs
              rcases hs with hs | hs
              · exact absurd hs.symm (pub_stream_ne_sec env)
              · exact hs.symm
          refine ⟨he, calls, nbits, g, uid, r1, r2, pkc, upkt, skc, sig, hq, ?_, hrc, ?_⟩
          · rw [hpub, hsec] at hg
            exact hg
          · rw [hc, hmidv, hpub, hsec]
            simp [prepare_calls, hpub, h0, h1]
        · exfalso
          rw [hc] at hp
          rcases List.mem_append.mp hp with hp | hp
          · exact hbody _ hp
          · simp at hp

theorem stream_tags_eq_writes (a : IOBUF) :
    ∀ cs : List Call, (∀ c ∈ cs, c.write_rc = 0) → stream_tags a cs = stream_writes a cs := by
  intro cs
  induction cs with
  | nil => intro _; rfl
  | cons c cs ih =>
    intro h
    have hc : Call.appends a c = Call.writes a c := by
      have h0 := h c (List.mem_cons_self _ _)
      cases c <;> simp_all [Call.appends, Call.writes, Call.write_rc]
    have ht := ih (fun d hd => h d (List.mem_cons_of_mem _ hd))
    simp only [stream_tags, stream_writes] at ht ⊢
    rw [List.filterMap_cons, List.filterMap_cons, hc, ht]

/-- The packets handed to the serializer, per stream, in a run that closes
both keyring streams. -/
theorem closed_run_writes (env : Env) (r : Run) (h : generate_keypair env = some r)
    (hp : closed pub_fname r.calls = true) (hs : closed sec_fname r.calls = true) :
    stream_writes (some pub_fname) r.calls
      = [Tag.comment, Tag.public_cert, Tag.user_id, Tag.signature] ∧
    stream_writes (some sec_fname) r.calls
      = [Tag.comment, Tag.secret_cert, Tag.user_id] := by
  obtain ⟨_, calls, nbits, g, uid, r1, r2, pkc, upkt, skc, sig, hq, hg, hrc, hc⟩ :=
    closed_run_calls env r h hp hs
  have hne := pub_ne_sec
  have hne2 : sec_fname ≠ pub_fname := fun e => pub_ne_sec e.symm
  have hpr : ∀ a, stream_writes a calls = [] := fun a =>
    filterMap_prompts (Call.writes a)
      (by intro c; cases c <;> simp [Call.is_prompt, Call.writes]) calls hq
  have hgw := (hg.2.2 hrc).2
  rw [hc]
  constructor
  · simp only [stream_writes, List.filterMap_append] at hpr hgw ⊢
    rw [hpr, hgw]
    simp [comment_calls, uid_packet, Call.writes, PACKET.tag, hne, hne2]
  · simp only [stream_writes, List.filterMap_append] at hpr hgw ⊢
    rw [hpr, hgw]
    simp [comment_calls, uid_packet, Call.writes, PACKET.tag, hne, hne2]

theorem gen_serialize_success (env : Env) (pub_io sec_io : IOBUF)
    (pkc : PKT_public_cert) (skc : PKT_secret_cert) (ret : Option PKT_secret_cert)
    (pre : List Call) (hpre : serialized_public pre = [])
    (hrc : (gen_serialize env pub_io sec_io pkc skc ret pre).rc = 0) :
    (gen_serialize env pub_io sec_io pkc skc ret pre).ret_pkc = some pkc ∧
    (gen_serialize env pub_io sec_io pkc skc ret pre).ret_skc = ret ∧
    serialized_public (gen_serialize env pub_io sec_io pkc skc ret pre).calls = [pkc] := by
  unfold gen_serialize at hrc ⊢
  simp only at hrc ⊢
  simp only [serialized_public] at hpre
  split_ifs at hrc ⊢ with h1 h2
  · exact absurd hrc h1
  · exact absurd hrc h2
  · simp [serialized_public, List.filterMap_append, hpre, Call.public_cert]

/-- What a successful `gen_elg` hands back, with or without a DEK: the public
certificate it serialized, and the copy of the secret certificate taken on
line 245, which has the raw `p`, `g`, `y`, `x` of `elg_generate` and the
checksum of `x`, and whose protection fields are those of the fresh
allocation. -/
theorem gen_elg_returns_working_copy (env : Env) (nbits : Nat) (pub_io sec_io : IOBUF)
    (dek : Option DEK) (g : GenResult)
    (h : gen_elg env nbits pub_io sec_io dek = some g) (hrc : g.rc = 0) :
    ∃ pkc v, gen_elg_built env nbits = some (pkc, v) ∧
      g.ret_pkc = some pkc ∧ serialized_public g.calls = [pkc] ∧
      g.ret_skc = some (elg_cert env v) ∧
      v.p = (env.elg_generate nbits).2.p ∧ v.g = (env.elg_generate nbits).2.g ∧
      v.y = (env.elg_generate nbits).2.y ∧ v.x = (env.elg_generate nbits).2.x ∧
      checksum_mpi env.mpi_get_buffer v.x = some v.csum ∧
      v.prot = env.m_alloc_skc := by
  refine ⟨_, _, gen_elg_built_eq env nbits, ?_, ?_, ?_, rfl, rfl, rfl, rfl,
    checksum_mpi_eq _ _, rfl⟩
  all_goals
    simp only [gen_elg, gen_elg_built_eq, Option.map_some', copy_secret_cert] at h
    cases dek with
    | none =>
      simp only [Option.some.injEq] at h
      subst h
      first
        | exact (gen_serialize_success _ _ _ _ _ _ _ (by simp [serialized_public, Call.public_cert]) hrc).1
        | exact (gen_serialize_success _ _ _ _ _ _ _ (by simp [serialized_public, Call.public_cert]) hrc).2.1
        | exact (gen_serialize_success _ _ _ _ _ _ _ (by simp [serialized_public, Call.public_cert]) hrc).2.2
    | some dek =>
      simp only [Option.some.injEq] at h
      split_ifs at h with hr
      · subst h
        exact absurd hrc hr
      · subst h
        first
          | exact (gen_serialize_success _ _ _ _ _ _ _ (by simp [serialized_public, Call.public_cert]) hrc).1
          | exact (gen_serialize_success _ _ _ _ _ _ _ (by simp [serialized_public, Call.public_cert]) hrc).2.1
          | exact (gen_serialize_success _ _ _ _ _ _ _ (by simp [serialized_public, Call.public_cert]) hrc).2.2

/-- Every run of `generate_keypair` closes or cancels streams only with its
last calls, and these are: nothing, the cancel of the public stream (the
operator declined to overwrite the secret keyring), the close of both
streams, or the cancel of both. -/
theorem run_ending (env : Env) (r : Run) (h : generate_keypair env = some r) :
    ∃ front ending, r.calls = front ++ ending ∧
      (∀ c ∈ front, c.is_end_call = false) ∧
      (ending = [] ∨ ending = [Call.iobuf_cancel (pub_stream env)] ∨
        ending = [Call.iobuf_close (pub_stream env), Call.iobuf_close (sec_stream env)] ∨
        ending = [Call.iobuf_cancel (pub_stream env), Call.iobuf_cancel (sec_stream env)]) := by
  have hprompt : ∀ c : Call, c.is_prompt = true → c.is_end_call = false := by
    intro c hc
    cases c <;> first | rfl | cases hc
  have hprep : ∀ c ∈ prepare_calls env, c.is_end_call = false := by
    intro c hc
    simp only [prepare_calls, List.mem_cons, List.mem_singleton, List.not_mem_nil,
      or_false] at hc
    rcases hc with hc | hc | hc <;> rw [hc] <;> rfl
  rcases generate_keypair_cases env r h with hq | ⟨algo, nbits, uid, dek, calls, hq, hr⟩
  · exact ⟨r.calls, [], (List.append_nil _).symm, fun c hc => hprompt c (hq c hc), Or.inl rfl⟩
  · have hcalls : ∀ c ∈ calls, c.is_end_call = false := fun c hc => hprompt c (hq c hc)
    rcases prepare_keyrings_cases env algo nbits uid dek calls r hr with
      ⟨_, _, hc⟩ | ⟨_, _, _, _, hc⟩ | ⟨_, _, _, hc⟩ | ⟨_, _, hw⟩
    · refine ⟨r.calls, [], (List.append_nil _).symm, ?_, Or.inl rfl⟩
      intro c hm
      rw [hc] at hm
      rcases List.mem_append.mp hm with hm | hm
      · exact hcalls c hm
      · rw [List.mem_singleton.mp hm]; rfl
    · refine ⟨r.calls, [], (List.append_nil _).symm, ?_, Or.inl rfl⟩
      intro c hm
      rw [hc] at hm
      rcases List.mem_append.mp hm with hm | hm
      · exact hcalls c hm
      · exact hprep c hm
    · refine ⟨calls ++ prepare_calls env, _, hc, ?_, Or.inr (Or.inl rfl)⟩
      intro c hm
      rcases List.mem_append.mp hm with hm | hm
      · exact hcalls c hm
      · exact hprep c hm
    · have hpre : ∀ c ∈ calls ++ prepare_calls env
          ++ [Call.iobuf_create sec_fname (sec_stream env)], c.is_end_call = false := by
        intro c hm
        rcases List.mem_append.mp hm with hm | hm
        · rcases List.mem_append.mp hm with hm | hm
          · exact hcalls c hm
          · exact hprep c hm
        · rw [List.mem_singleton.mp hm]; rfl
      have hcc : ∀ c ∈ comment_calls env (pub_stream env) (sec_stream env),
          c.is_end_call = false := by
        intro c hm
        simp only [comment_calls, List.mem_cons, List.mem_singleton, List.not_mem_nil,
          or_false] at hm
        rcases hm with hm | hm <;> rw [hm] <;> rfl
      rcases write_keyrings_calls _ _ _ _ _ _ _ _ _ hw with
        ⟨_, hc⟩ | ⟨_, g, mid, hg, hmid, hc⟩
      · refine ⟨r.calls, [], (List.append_nil _).symm, ?_, Or.inl rfl⟩
        intro c hm
        rw [hc] at hm
        rcases List.mem_append.mp hm with hm | hm
        · exact hpre c hm
        · exact hcc c hm
      · have hbody : ∀ c ∈ calls ++ prepare_calls env
            ++ [Call.iobuf_create sec_fname (sec_stream env)]
            ++ comment_calls env (pub_stream env) (sec_stream env) ++ g.calls ++ mid,
            c.is_end_call = false := by
          intro c hm
          rcases List.mem_append.mp hm with hm | hm
          · rcases List.mem_append.mp hm with hm | hm
            · rcases List.mem_append.mp hm with hm | hm
              · exact hpre c hm
              · exact hcc c hm
            · have := hg.1 c hm
              cases c <;> first | rfl | cases this
          · have := hmid c hm
            cases c <;> first | rfl | cases this
        rcases hc with ⟨hc, _, _⟩ | hc
        · exact ⟨_, _, hc, hbody, Or.inr (Or.inr (Or.inl rfl))⟩
        · exact ⟨_, _, hc, hbody, Or.inr (Or.inr (Or.inr rfl))⟩

/-- No run of `generate_keypair` closes one stream and cancels another. -/
theorem never_closed_and_cancelled (env : Env) (r : Run)
    (h : generate_keypair env = some r) (a b : IOBUF)
    (hclose : Call.iobuf_close a ∈ r.calls) (hcancel : Call.iobuf_cancel b ∈ r.calls) :
    False := by
  obtain ⟨front, ending, hc, hfront, hend⟩ := run_ending env r h
  rw [hc] at hclose hcancel
  have h1 : Call.iobuf_close a ∈ ending := by
    rcases List.mem_append.mp hclose with hm | hm
    · exact absurd (hfront _ hm) (by simp [Call.is_end_call])
    · exact hm
  have h2 : Call.iobuf_cancel b ∈ ending := by
    rcases List.mem_append.mp hcancel with hm | hm
    · exact absurd (hfront _ hm) (by simp [Call.is_end_call])
    · exact hm
  rcases hend with e | e | e | e <;> rw [e] at h1 h2 <;> simp at h1 h2

/-! ## The generators: claims -/

/-- C10: once a generator has built the secret record, and before any
protection step, the stored checksum covers the secret exponents only: in
`gen_elg` it is `checksum_mpi(x)`, in `gen_rsa` it is the sum modulo 65536 of
`checksum_mpi` of `d`, `p`, `q` and `u`; without a DEK the secret record handed
to `build_packet` (which happens when the public record was written) carries
exactly that checksum. -/
theorem secret_checksum_covers_secret_exponents (env : Env) (nbits : Nat)
    (pub_io sec_io : IOBUF) :
    (∃ pkc v g cx,
        gen_elg_built env nbits = some (pkc, v) ∧
        v.x = (env.elg_generate nbits).2.x ∧
        checksum_mpi env.mpi_get_buffer v.x = some cx ∧
        v.csum = cx ∧
        gen_elg env nbits pub_io sec_io none = some g ∧
        (serialized_secret g.calls).map PKT_secret_cert.csum
          = if env.build_packet pub_io (PACKET.PKT_PUBLIC_CERT pkc) = 0 then [cx] else []) ∧
    (∃ pkc v g cd cp cq cu,
        gen_rsa_built env nbits = some (pkc, v) ∧
        checksum_mpi env.mpi_get_buffer (env.rsa_generate nbits).2.d = some cd ∧
        checksum_mpi env.mpi_get_buffer (env.rsa_generate nbits).2.p = some cp ∧
        checksum_mpi env.mpi_get_buffer (env.rsa_generate nbits).2.q = some cq ∧
        checksum_mpi env.mpi_get_buffer (env.rsa_generate nbits).2.u = some cu ∧
        v.csum = (cd + cp + cq + cu) % 65536 ∧
        gen_rsa env nbits pub_io sec_io none = some g ∧
        (serialized_secret g.calls).map PKT_secret_cert.csum
          = if env.build_packet pub_io (PACKET.PKT_PUBLIC_CERT pkc) = 0
            then [(cd + cp + cq + cu) % 65536] else []) := by
  constructor
  · obtain ⟨pkc, v, hb, hg⟩ := gen_elg_no_dek env nbits pub_io sec_io
    have hb2 := gen_elg_built_eq env nbits
    rw [hb] at hb2
    have hv := congrArg Prod.snd (Option.some.inj hb2)
    simp only at hv
    refine ⟨pkc, v, _, v.csum, hb, ?_, ?_, rfl, hg, ?_⟩
    · rw [hv]
    · rw [checksum_mpi_eq, hv]
    · rw [serialized_secret_gen_serialize]
      by_cases h1 : env.build_packet pub_io (PACKET.PKT_PUBLIC_CERT pkc) = 0 <;>
        simp [h1, serialized_secret, Call.secret_cert, PKT_secret_cert.csum, elg_cert]
  · obtain ⟨pkc, v, hb, hg⟩ := gen_rsa_no_dek env nbits pub_io sec_io
    have hb2 := gen_rsa_built_eq env nbits
    rw [hb] at hb2
    have hv := congrArg Prod.snd (Option.some.inj hb2)
    simp only at hv
    have hc : v.csum = (mpi_csum env.mpi_get_buffer (env.rsa_generate nbits).2.d
        + mpi_csum env.mpi_get_buffer (env.rsa_generate nbits).2.p
        + mpi_csum env.mpi_get_buffer (env.rsa_generate nbits).2.q
        + mpi_csum env.mpi_get_buffer (env.rsa_generate nbits).2.u) % 65536 := by
      rw [hv]
      simp only [to_u16]
      omega
    refine ⟨pkc, v, _, _, _, _, _, hb, checksum_mpi_eq _ _, checksum_mpi_eq _ _,
      checksum_mpi_eq _ _, checksum_mpi_eq _ _, hc, hg, ?_⟩
    rw [serialized_secret_gen_serialize, ← hc]
    by_cases h1 : env.build_packet pub_io (PACKET.PKT_PUBLIC_CERT pkc) = 0 <;>
      simp [h1, serialized_secret, Call.secret_cert, PKT_secret_cert.csum, rsa_cert]

/-- C8: evaluation of `gen_elg` where the memory `m_alloc` hands out for the
secret record has a non-zero `is_protected` byte.  The call succeeds, with
and without a DEK, and the record stored through `ret_skc` has
`is_protected = 1`: the copy is taken (line 245) before `is_protected` is
assigned (lines 247 and 251), so the tag of the copy is never set. -/
theorem gen_elg_returned_tag_unassigned :
    karl_env.m_alloc_skc.is_protected = 1 ∧
    (∃ g skc, gen_elg karl_env 1024 (some pub_fname) (some sec_fname) none = some g ∧
      g.rc = 0 ∧ g.ret_skc = some skc ∧ skc.is_protected = 1 ∧
      (serialized_secret g.calls).map PKT_secret_cert.is_protected = [0]) ∧
    (∃ g skc, gen_elg karl_env 1024 (some pub_fname) (some sec_fname)
        (some { algo := 42, key := [] }) = some g ∧
      g.rc = 0 ∧ g.ret_skc = some skc ∧ skc.is_protected = 1) := by
  refine ⟨rfl, ⟨_, _, rfl, ?_, rfl, ?_, ?_⟩, ⟨_, _, rfl, ?_, rfl, ?_⟩⟩ <;> decide

/-! ## The key size: lemmas -/

/-- Where `nbits + 31` does not wrap, the rounding gives the least multiple
of 32 that is at least `nbits`. -/
theorem round_keysize_no_wrap (nbits : Nat) (h : nbits + 31 < 4294967296) :
    round_keysize nbits % 32 = 0 ∧ nbits ≤ round_keysize nbits ∧
    round_keysize nbits < nbits + 32 ∧
    (nbits % 32 = 0 → round_keysize nbits = nbits) := by
  unfold round_keysize to_unsigned
  split_ifs with h32
  · refine ⟨?_, ?_, ?_, ?_⟩ <;> omega
  · refine ⟨?_, ?_, ?_, ?_⟩ <;> omega

theorem int_to_unsigned_lt (i : Int) : int_to_unsigned i < 4294967296 := by
  unfold int_to_unsigned
  omega

/-- The key size prompt only lets a size of at least 128 through, and a size
above 2048 only after an answer that `answer_is_yes` accepts. -/
theorem ask_keysize_accepts_aux (n : Nat) :
    ∀ (answers : List String) (calls : List Call) (nbits : Nat) (rest : List String)
      (calls2 : List Call), answers.length ≤ n →
      ask_keysize calls answers = Asked.done nbits rest calls2 →
      128 ≤ nbits ∧ nbits < 4294967296 ∧
      (2048 < nbits → ∃ answer pre, answer_is_yes answer = true ∧
        calls2 = pre ++ [Call.tty_get answer]) := by
  induction n with
  | zero =>
    intro answers calls nbits rest calls2 hl h
    have : answers = [] := List.length_eq_zero.mp (Nat.le_zero.mp hl)
    subst this
    simp [ask_keysize] at h
  | succ n ih =>
    intro answers calls nbits rest calls2 hl h
    match answers with
    | [] => simp [ask_keysize] at h
    | a :: tl =>
      have hr : tl.length ≤ n := by simpa using hl
      unfold ask_keysize at h
      simp only at h
      have hu := int_to_unsigned_lt (atoi a)
      split_ifs at h with e1 e2 e3 e4 e5
      all_goals first
        | exact ih tl _ _ _ _ hr h
        | (simp only [Asked.done.injEq] at h
           obtain ⟨hn, _, _⟩ := h
           subst hn
           refine ⟨by omega, by omega, fun hgt => ?_⟩
           omega)
        | (cases tl with
           | nil => simp at h
           | cons b tl2 =>
             have hr2 : tl2.length ≤ n := by
               simp only [List.length_cons] at hr
               omega
             simp only at h
             split_ifs at h with hy
             · simp only [Asked.done.injEq] at h
               obtain ⟨hn, _, hc⟩ := h
               subst hn
               exact ⟨by omega, by omega, fun _ => ⟨b, _, hy, hc.symm⟩⟩
             · exact ih tl2 _ _ _ _ hr2 h)

theorem ask_keysize_accepts (answers : List String) (calls : List Call) (nbits : Nat)
    (rest : List String) (calls2 : List Call)
    (h : ask_keysize calls answers = Asked.done nbits rest calls2) :
    128 ≤ nbits ∧ nbits < 4294967296 ∧
    (2048 < nbits → ∃ answer pre, answer_is_yes answer = true ∧
      calls2 = pre ++ [Call.tty_get answer]) :=
  ask_keysize_accepts_aux answers.length answers calls nbits rest calls2 (le_refl _) h

/-! ## The key size: claims -/

/-- C6: evaluation of the key size prompt and the rounding for the answers
"-1" and "yes".  `atoi` gives -1, stored in the `unsigned` `nbits` as
4294967295; the prompt accepts it after the confirmation; `nbits + 31` wraps
and the rounded size is 0, which is not at least `nbits`. -/
theorem round_keysize_wraps_to_zero :
    ask_keysize [] ["-1", "yes"]
      = Asked.done 4294967295 [] [Call.tty_get "-1", Call.tty_get "yes"] ∧
    4294967295 % 32 ≠ 0 ∧
    round_keysize 4294967295 = 0 ∧
    ¬ (4294967295 ≤ round_keysize 4294967295) := by
  refine ⟨by decide, by decide, by decide, by decide⟩

/-- C7: evaluation of `generate_keypair` for an operator who answers the key
size prompt with "-1" and confirms with "yes".  The run goes through to the
generator, and the key size handed to it is 0, below 128. -/
theorem generate_keypair_passes_zero_bits :
    ∃ r, generate_keypair minus_one_env = some r ∧
      r.exit = Exit.returned ∧
      generator_nbits r.calls = [0] ∧
      closed pub_fname r.calls = true ∧ closed sec_fname r.calls = true := by
  refine ⟨_, rfl, ?_, ?_, ?_, ?_⟩ <;> decide

/-! ## The keyring streams: evaluations -/

/-- C1: evaluation of `generate_keypair` where `build_packet` inside the first
`write_uid` fails.  `write_uid` returns nothing, `rc` stays 0, the self
signature is written, and both streams are closed, not cancelled; the public
stream then holds no user id packet. -/
theorem write_uid_failure_still_closes :
    ∃ r, generate_keypair uid_write_fails_env = some r ∧
      Call.build_packet (some pub_fname)
        (PACKET.PKT_USER_ID { len := 9, name := "Karl Test" }) 20 ∈ r.calls ∧
      closed pub_fname r.calls = true ∧ closed sec_fname r.calls = true ∧
      cancelled pub_fname r.calls = false ∧ cancelled sec_fname r.calls = false ∧
      stream_tags (some pub_fname) r.calls
        = [Tag.comment, Tag.public_cert, Tag.signature] := by
  refine ⟨_, rfl, ?_, ?_, ?_, ?_, ?_, ?_⟩ <;> decide

/-- C3: evaluation of `generate_keypair` in two cases of failed preparation.
When `overwrite_filep` reports an error for the secret keyring after the
public stream was created, the function returns with the public stream
neither closed nor cancelled.  When `iobuf_create` delivers no stream for
the public keyring, the function does not return: it goes on to prepare the
secret keyring, calls `write_comment` with the `NULL` stream and invokes the
generator. -/
theorem failed_preparation_leaks_or_goes_on :
    (∃ r, generate_keypair sec_check_error_env = some r ∧
      r.exit = Exit.returned ∧
      created r.calls = [pub_fname] ∧
      left_open pub_fname r.calls = true ∧
      generator_nbits r.calls = []) ∧
    (∃ r, generate_keypair no_pub_stream_env = some r ∧
      Call.iobuf_create pub_fname none ∈ r.calls ∧
      creations r.calls = [pub_fname, sec_fname] ∧
      generator_nbits r.calls = [1024] ∧
      Call.write_comment none "#public key created by G10 pre-release 0.0.0" 0 ∈ r.calls) := by
  refine ⟨⟨_, rfl, ?_, ?_, ?_, ?_⟩, ⟨_, rfl, ?_, ?_, ?_, ?_⟩⟩ <;> decide

/-! ## The keyring streams: claims -/

/-- C9: in every run of `generate_keypair` in which the overwrite check for
the public keyring reports that the operator declined (`overwrite_filep`
returned -1), the function returns without a generator having been invoked,
`iobuf_create` is called for neither path, and the public keyring is the only
path `overwrite_filep` was called for. -/
theorem declined_public_overwrite_stops (env : Env) (r : Run)
    (h : generate_keypair env = some r)
    (hd : Call.overwrite_filep pub_fname (-1) ∈ r.calls) :
    r.exit = Exit.returned ∧
    generator_nbits r.calls = [] ∧
    creations r.calls = [] ∧
    overwrite_checks r.calls = [pub_fname] := by
  have hne := pub_ne_sec
  rcases generate_keypair_cases env r h with hp | ⟨algo, nbits, uid, dek, calls, hp, hr⟩
  · exact absurd (hp _ hd) (by simp [Call.is_prompt])
  · have hnot : Call.overwrite_filep pub_fname (-1) ∉ calls := fun hm =>
      absurd (hp _ hm) (by simp [Call.is_prompt])
    rcases prepare_keyrings_cases env algo nbits uid dek calls r hr with
      ⟨_, he, hc⟩ | ⟨h0, _, _, _, hc⟩ | ⟨h0, _, _, hc⟩ | ⟨h0, _, hw⟩
    · refine ⟨he, ?_, ?_, ?_⟩ <;> rw [hc]
      · simp [generator_nbits, List.filterMap_append, Call.generates,
          filterMap_prompts Call.generates (by intro c; cases c <;> simp [Call.is_prompt, Call.generates]) calls hp]
      · simp [creations, List.filterMap_append, Call.creates,
          filterMap_prompts Call.creates (by intro c; cases c <;> simp [Call.is_prompt, Call.creates]) calls hp]
      · simp [overwrite_checks, List.filterMap_append, Call.checks,
          filterMap_prompts Call.checks (by intro c; cases c <;> simp [Call.is_prompt, Call.checks]) calls hp]
    · exfalso
      rw [hc] at hd
      rcases List.mem_append.mp hd with hd | hd
      · exact hnot hd
      · exact not_mem_prepare_calls env h0 hd
    · exfalso
      rw [hc] at hd
      rcases List.mem_append.mp hd with hd | hd
      · rcases List.mem_append.mp hd with hd | hd
        · exact hnot hd
        · exact not_mem_prepare_calls env h0 hd
      · simp at hd
    · exfalso
      obtain ⟨tail, hc, ht⟩ := write_keyrings_output_calls _ _ _ _ _ _ _ _ _ hw
      rw [hc] at hd
      rcases List.mem_append.mp hd with hd | hd
      · rcases List.mem_append.mp hd with hd | hd
        · rcases List.mem_append.mp hd with hd | hd
          · exact hnot hd
          · exact not_mem_prepare_calls env h0 hd
        · simp at hd
      · exact absurd (ht _ hd) (by simp [Call.is_output_call])

/-- In every run of `generate_keypair` that closes both keyring streams, the
packets handed to the serializer for the public stream are exactly comment,
public certificate, user id, signature, in that order, and those for the
secret stream are exactly comment, secret certificate, user id, in that
order, with no signature; when no write reported a failure this is also what
the streams hold. -/
theorem closed_run_keyring_layout (env : Env) (r : Run)
    (h : generate_keypair env = some r)
    (hp : closed pub_fname r.calls = true) (hs : closed sec_fname r.calls = true) :
    r.exit = Exit.returned ∧
    stream_writes (some pub_fname) r.calls
      = [Tag.comment, Tag.public_cert, Tag.user_id, Tag.signature] ∧
    stream_writes (some sec_fname) r.calls
      = [Tag.comment, Tag.secret_cert, Tag.user_id] ∧
    Tag.signature ∉ stream_writes (some sec_fname) r.calls ∧
    ((∀ c ∈ r.calls, c.write_rc = 0) →
      stream_tags (some pub_fname) r.calls
        = [Tag.comment, Tag.public_cert, Tag.user_id, Tag.signature] ∧
      stream_tags (some sec_fname) r.calls
        = [Tag.comment, Tag.secret_cert, Tag.user_id]) := by
  have hx := (closed_run_calls env r h hp hs).1
  obtain ⟨h1, h2⟩ := closed_run_writes env r h hp hs
  refine ⟨hx, h1, h2, ?_, ?_⟩
  · rw [h2]
    decide
  · intro hw
    rw [stream_tags_eq_writes _ _ hw, stream_tags_eq_writes _ _ hw]
    exact ⟨h1, h2⟩

/-- The run of `karl_env` closes both streams, no write in it fails, and the
streams hold the four and the three packets. -/
theorem karl_run_keyring_layout :
    generate_keypair karl_env = some karl_run ∧
    closed pub_fname karl_run.calls = true ∧ closed sec_fname karl_run.calls = true ∧
    (∀ c ∈ karl_run.calls, c.write_rc = 0) ∧
    stream_tags (some pub_fname) karl_run.calls
      = [Tag.comment, Tag.public_cert, Tag.user_id, Tag.signature] ∧
    stream_tags (some sec_fname) karl_run.calls
      = [Tag.comment, Tag.secret_cert, Tag.user_id] :=
  ⟨by decide, by decide, by decide, by decide,
    (closed_run_keyring_layout karl_env karl_run (by decide) (by decide)
      (by decide)).2.2.2.2 (by decide)⟩

/-- C2: evaluation of `generate_keypair` where `build_packet` fails for the
user id packet on both streams.  `write_uid` drops the code, so the run ends
as a success: it returns after closing both streams, neither is cancelled.
The public stream then holds comment, public certificate, signature and the
secret stream holds comment, secret certificate: not the four and the three
packets of the layout, the user id is missing from both. -/
theorem successful_run_without_user_id :
    ∃ r, generate_keypair no_uid_written_env = some r ∧
      r.exit = Exit.returned ∧
      closed pub_fname r.calls = true ∧ closed sec_fname r.calls = true ∧
      cancelled pub_fname r.calls = false ∧ cancelled sec_fname r.calls = false ∧
      stream_tags (some pub_fname) r.calls
        = [Tag.comment, Tag.public_cert, Tag.signature] ∧
      stream_tags (some sec_fname) r.calls = [Tag.comment, Tag.secret_cert] ∧
      stream_tags (some pub_fname) r.calls
        ≠ [Tag.comment, Tag.public_cert, Tag.user_id, Tag.signature] ∧
      stream_tags (some sec_fname) r.calls
        ≠ [Tag.comment, Tag.secret_cert, Tag.user_id] := by
  refine ⟨_, rfl, ?_, ?_, ?_, ?_, ?_, ?_, ?_, ?_, ?_⟩ <;> decide

/-- Witness for C9: the run of `pub_declined_env` makes the overwrite check
for the public keyring, gets -1, and stops. -/
theorem declined_public_overwrite_stops_witness :
    generate_keypair pub_declined_env = some pub_declined_run ∧
    Call.overwrite_filep pub_fname (-1) ∈ pub_declined_run.calls ∧
    (pub_declined_run.exit = Exit.returned ∧
      generator_nbits pub_declined_run.calls = [] ∧
      creations pub_declined_run.calls = [] ∧
      overwrite_checks pub_declined_run.calls = [pub_fname]) :=
  ⟨by decide, by decide,
    declined_public_overwrite_stops pub_declined_env pub_declined_run (by decide) (by decide)⟩

end G10
